import Mathlib

/-!
A verification development for `src/sudoku.c`.

The C program is a backtracking Sudoku solver.  A grid is the C array
`int sudoku[81]`, row-major, `0` meaning "empty".  The embedding below keeps the
source's function names.

Conventions of the embedding

* C `int` values (cell contents, indices, digits) are `Int`; the program never
  leaves the range of a 32-bit `int`, and `/`, `%` are C's truncating
  `Int.tdiv`, `Int.tmod`.
* `uint64_t` values are `Nat` reduced `% 2 ^ 64` at every addition.
* An array is a `List`; an array handed to a function to be filled is passed
  in with its previous contents and returned.
* Inside `solve` the index `c` can be `-1`, so every access `sudoku[c]`,
  `sudoku[ns[i]]` made there is checked: an access outside the array stops the
  run in the outcome `fault`.
* `solve` is recursive: the embedding recurses on an explicit depth budget and
  a run that exceeds it ends in the outcome `nofuel`.
-/

namespace Sudoku

/-! The embedded program. -/

/-- The source function `int cell_to_index(int row, int col)`. -/
def cell_to_index (row col : Int) : Int := row * 9 + col

/-- The source function `void neighbours(int i, int ns[27])`: the entries are produced in the order
`ns[0]`, `ns[1]`, ... in which the source stores them through `ns[t++]`. -/
def neighbours (i : Int) : List Int :=
  let row := i.tdiv 9
  let col := i.tmod 9
  let rowPart := (List.range 9).map (fun (t : Nat) => row * 9 + (t : Int))
  let colPart := (List.range 9).map (fun (t : Nat) => col + 9 * (t : Int))
  let rstart := (row.tdiv 3) * 3
  let cstart := (col.tdiv 3) * 3
  let boxPart := (List.range 3).flatMap (fun (j : Nat) =>
    (List.range 3).map (fun (k : Nat) => cell_to_index (rstart + (j : Int)) (cstart + (k : Int))))
  rowPart ++ colPart ++ boxPart

/-- A checked read `a[i]`: `none` when `i` is outside the array. -/
def rd (a : List Int) (i : Int) : Option Int :=
  if i < 0 then none else a[i.toNat]?

/-- A checked write `a[i] = v`: `none` when `i` is outside the array. -/
def wr (a : List Int) (i v : Int) : Option (List Int) :=
  if 0 ≤ i ∧ i.toNat < a.length then some (a.set i.toNat v) else none

/-- The `for` loop of `valid_attempt` over the entries of `ns`, in order:
`some 0` at the first entry whose cell holds `a`, `some 1` when there is none,
`none` when an entry read before that lies outside the grid. -/
def valid_attempt_loop (sudoku : List Int) (a : Int) : List Int → Option Int
  | [] => some 1
  | n :: ns =>
    match rd sudoku n with
    | none => none
    | some v => if v = a then some 0 else valid_attempt_loop sudoku a ns

/-- The source function `int valid_attempt(int sudoku[81], int a, int c)`. -/
def valid_attempt (sudoku : List Int) (a c : Int) : Option Int :=
  valid_attempt_loop sudoku a (neighbours c)

/-- The `for` loop of `first_empty` from index `i`, with `n` indices left. -/
def first_empty_loop (sudoku : List Int) : Nat → Nat → Int
  | 0, _ => -1
  | n + 1, i => if sudoku.getD i 0 = 0 then (i : Int) else first_empty_loop sudoku n (i + 1)

/-- The source function `int first_empty(int sudoku[81])`; the 81 indices read
are those of the array, so the result is meant for lists of length 81. -/
def first_empty (sudoku : List Int) : Int := first_empty_loop sudoku 81 0

/-- The source function `void copy_array(int *a, int *b, int n)`; the result is the new `b`. -/
def copy_array (a b : List Int) (n : Nat) : List Int :=
  (List.range n).foldl (fun b (i : Nat) => b.set i (a.getD i 0)) b

/-- The memory `solve` acts on: the working grid, the output buffer, the
function's `static int is_solved`, and a ghost counter of the calls
`copy_array(sudoku, solved, 81)` made so far. -/
structure State where
  sudoku : List Int
  solved : List Int
  is_solved : Bool
  copies : Nat
deriving DecidableEq, Repr

/-- How a run of `solve` ends. -/
inductive Outcome where
  | ret (s : State)
  | fault (s : State)
  | nofuel
deriving DecidableEq, Repr

/-- The digit loop `for (int i = 1; i <= 9; i++)` of `solve` at cell `c`, over
the digits still to try; `call` is the recursive call `solve(sudoku, solved)`. -/
def solve_loop (call : State → Outcome) (c : Int) : List Int → State → Outcome
  | [], s => .ret s
  | i :: is, s =>
    match valid_attempt s.sudoku i c with
    | none => .fault s
    | some v =>
      if v ≠ 0 then
        match wr s.sudoku c i with
        | none => .fault s
        | some g1 =>
          match call { s with sudoku := g1 } with
          | .ret s2 =>
            match wr s2.sudoku c 0 with
            | none => .fault s2
            | some g2 => solve_loop call c is { s2 with sudoku := g2 }
          | o => o
      else solve_loop call c is s

/-- The source function `void solve(int sudoku[81], int solved[81])`, with a budget on the depth of
the recursion. -/
def solve : Nat → State → Outcome
  | 0, _ => .nofuel
  | fuel + 1, s =>
    if s.is_solved then .ret s
    else
      let c := first_empty s.sudoku
      let s1 : State :=
        if c = -1 then
          { s with is_solved := true,
                   solved := copy_array s.sudoku s.solved 81,
                   copies := s.copies + 1 }
        else s
      solve_loop (solve fuel) c [1, 2, 3, 4, 5, 6, 7, 8, 9] s1

/-- The loop of `fib_weights` with `n` iterations left, that is at `i = n - 1`. -/
def fib_weights_loop : Nat → List Nat → Nat → Nat → List Nat
  | 0, w, _, _ => w
  | i + 1, w, a, b =>
    let wi := (a + b) % 2 ^ 64
    fib_weights_loop i (w.set i wi) b wi

/-- The source function `void fib_weights(uint64_t w[81])`; the result is the new `w`. -/
def fib_weights (w : List Nat) : List Nat := fib_weights_loop 81 w 0 1

/-- The source function `uint64_t difficulty(int sudoku[81], uint64_t weights[81])`. -/
def difficulty (sudoku : List Int) (weights : List Nat) : Nat :=
  (List.range 81).foldl
    (fun diff (i : Nat) => if sudoku.getD i 0 = 0 then (diff + weights.getD i 0) % 2 ^ 64 else diff) 0

/-- The source function `int rotate_cell(int cell)`. -/
def rotate_cell (cell : Int) : Int :=
  let row := cell.tdiv 9
  let col := cell.tmod 9
  let new_row := col
  let new_col := 8 - row
  cell_to_index new_row new_col

/-- The inner loop `for (int j = times; j > 0; j--) cell = rotate_cell(cell)`. -/
def rotate_cell_times (times : Int) (cell : Int) : Int :=
  rotate_cell^[times.toNat] cell

/-- The source function `void rotate_times(int sudoku[81], int times, int fixed[81])`;
the result is the new `fixed`.  The cell computed for an index in `[0,80]` is
again in `[0,80]` (theorems `rotate_cell_times_nat`, `rot1_iter_lt`), so the
store `fixed[cell]` is a plain list update. -/
def rotate_times (sudoku : List Int) (times : Int) (fixed : List Int) : List Int :=
  let times := times.tmod 4
  (List.range 81).foldl
    (fun fixed (i : Nat) => fixed.set (rotate_cell_times times (i : Int)).toNat (sudoku.getD i 0)) fixed

/-- One iteration of the loop of `best_rotation`, on `(best, best_score, rotated)`. -/
def best_rotation_step (sudoku : List Int) (weights : List Nat) (temp : List Int)
    (st : Int × Nat × List Int) (i : Int) : Int × Nat × List Int :=
  let temp := rotate_times sudoku i temp
  let diff := difficulty temp weights
  if diff < st.2.1 then (i, diff, copy_array temp st.2.2 81) else st

/-- The source function `int best_rotation(int sudoku[81], int rotated[81])`: the result is the
returned count and the new `rotated`.  The locals `weights` and `temp` are not
initialised in the source; their previous contents are parameters. -/
def best_rotation (sudoku rotated : List Int) (weights : List Nat) (temp : List Int) :
    Int × List Int :=
  let weights := fib_weights weights
  let best_score := difficulty sudoku weights
  let rotated := copy_array sudoku rotated 81
  let r := [1, 2, 3].foldl (best_rotation_step sudoku weights temp) (0, best_score, rotated)
  (r.1, r.2.2)

/-- The `solve` branch of `main`, from the grid read by `read_sudoku` to the
grid handed to `print_sudoku`; `none` when the run of `solve` does not return. -/
def main_solve (fuel : Nat) (sudoku solved rotated : List Int) (weights : List Nat)
    (temp : List Int) : Option (List Int) :=
  let br := best_rotation sudoku rotated weights temp
  let rotations := br.1
  let sudoku := copy_array br.2 sudoku 81
  match solve fuel { sudoku := sudoku, solved := solved, is_solved := false, copies := 0 } with
  | .ret s => some (rotate_times s.solved (4 - rotations) s.sudoku)
  | _ => none

/-! Vocabulary of the specification. -/

/-- The value of cell `i` of a grid. -/
def cell (g : List Int) (i : Nat) : Int := g.getD i 0

/-- Cells `i` and `j` share a row, a column or a 3x3 box. -/
def Peer (i j : Nat) : Prop :=
  i / 9 = j / 9 ∨ i % 9 = j % 9 ∨ (i / 27 = j / 27 ∧ i % 9 / 3 = j % 9 / 3)

instance instDecidablePeer (i j : Nat) : Decidable (Peer i j) := by
  unfold Peer; infer_instance

/-- An 81-cell grid with values in `0..9`. -/
def IsGrid (g : List Int) : Prop :=
  g.length = 81 ∧ ∀ i < 81, 0 ≤ cell g i ∧ cell g i ≤ 9

instance instDecidableIsGrid (g : List Int) : Decidable (IsGrid g) := by
  unfold IsGrid; infer_instance

/-- The givens are consistent: no non-zero digit occurs twice in a row, column
or box. -/
def Consistent (g : List Int) : Prop :=
  ∀ i < 81, ∀ j < 81, i ≠ j ∧ Peer i j ∧ cell g i ≠ 0 → cell g i ≠ cell g j

instance instDecidableConsistent (g : List Int) : Decidable (Consistent g) := by
  unfold Consistent; infer_instance

/-- The cells of row `r`, left to right. -/
def rowCells (r : Nat) : List Nat := (List.range 9).map (fun k => 9 * r + k)

/-- The cells of column `c`, top to bottom. -/
def colCells (c : Nat) : List Nat := (List.range 9).map (fun k => c + 9 * k)

/-- The cells of the box whose top left cell is in row `3 * br`, column
`3 * bc`, row-major. -/
def boxCells (br bc : Nat) : List Nat :=
  (List.range 3).flatMap (fun j => (List.range 3).map (fun k => (3 * br + j) * 9 + (3 * bc + k)))

/-- The 27 constraint groups: 9 rows, 9 columns, 9 boxes. -/
def groups : List (List Nat) :=
  (List.range 9).map rowCells ++ (List.range 9).map colCells ++
    (List.range 9).map (fun b => boxCells (b / 3) (b % 3))

/-- A complete valid grid: 81 cells, every row, column and box a permutation
of `1..9`. -/
def ValidGrid (f : List Int) : Prop :=
  f.length = 81 ∧ ∀ grp ∈ groups, (grp.map (cell f)).Perm [1, 2, 3, 4, 5, 6, 7, 8, 9]

instance instDecidableValidGrid (f : List Int) : Decidable (ValidGrid f) := by
  unfold ValidGrid; infer_instance

/-- The grid `f` is a valid completion of the puzzle `g`. -/
def Completion (g f : List Int) : Prop :=
  ValidGrid f ∧ ∀ i < 81, cell g i ≠ 0 → cell f i = cell g i

instance instDecidableCompletion (g f : List Int) : Decidable (Completion g f) := by
  unfold Completion; infer_instance

/-- Sequential stores `b[p i] = v i` for `i = 0, .., n - 1`, the shape of the
loops of `copy_array` and `rotate_times`. -/
def stores (p : Nat → Nat) (v : Nat → Int) (n : Nat) (b : List Int) : List Int :=
  (List.range n).foldl (fun b (i : Nat) => b.set (p i) (v i)) b

/-- The cells sharing a row, column or box with cell `i`, in the order in which
`neighbours` lists them. -/
def peerCells (i : Nat) : List Nat :=
  rowCells (i / 9) ++ colCells (i % 9) ++ boxCells (i / 9 / 3) (i % 9 / 3)

/-- The number of empty cells of a grid. -/
def empties (g : List Int) : Nat :=
  ((Finset.range 81).filter (fun i => cell g i = 0)).card

/-- There is no valid completion of `g`. -/
def NoCompletion (g : List Int) : Prop := ¬ ∃ f, Completion g f

/-- Lexicographic order on the 81 values of two grids read in index order. -/
def LexLe (a b : List Int) : Prop :=
  a = b ∨ ∃ p, p < 81 ∧ (∀ q, q < p → cell a q = cell b q) ∧ cell a p < cell b p

/-- The state `s` records a solution of `g`: the latch is set, exactly one more
copy was made than the `k` made before, and the output buffer holds the
lexicographically least valid completion of `g`. -/
def Found (g : List Int) (k : Nat) (s : State) : Prop :=
  s.is_solved = true ∧ s.copies = k + 1 ∧ Completion g s.solved ∧
    ∀ f, Completion g f → LexLe s.solved f

/-- What a call of `solve` on the grid `g`, output buffer `out`, clear latch and
`k` earlier copies leaves behind: the working grid is `g` again, and either
`g` has no completion and nothing else changed, or a solution was recorded. -/
def SolvePost (g out : List Int) (k : Nat) (s : State) : Prop :=
  s.sudoku = g ∧
    ((NoCompletion g ∧ s.solved = out ∧ s.is_solved = false ∧ s.copies = k) ∨ Found g k s)

/-- What the digit loop of `solve` at cell `c` leaves behind after trying the
digits `ds` in order: the first digit that admits a completion yields the
recorded solution, and if there is none the state is unchanged. -/
def LoopPost (g : List Int) (c : Nat) (out : List Int) (k : Nat) : List Int → State → Prop
  | [], s => s = { sudoku := g, solved := out, is_solved := false, copies := k }
  | d :: ds, s =>
    (s.sudoku = g ∧ Found (g.set c d) k s) ∨
      (NoCompletion (g.set c d) ∧ LoopPost g c out k ds s)

/-- The memory at the start of a run of `solve(g, out)`: the latch is clear and
no copy has been made. -/
def start (g out : List Int) : State :=
  { sudoku := g, solved := out, is_solved := false, copies := 0 }

/-- A complete valid grid. -/
def solvedGrid : List Int :=
  [5, 3, 4, 6, 7, 8, 9, 1, 2,
   6, 7, 2, 1, 9, 5, 3, 4, 8,
   1, 9, 8, 3, 4, 2, 5, 6, 7,
   8, 5, 9, 7, 6, 1, 4, 2, 3,
   4, 2, 6, 8, 5, 3, 7, 9, 1,
   7, 1, 3, 9, 2, 4, 8, 5, 6,
   9, 6, 1, 5, 3, 7, 2, 8, 4,
   2, 8, 7, 4, 1, 9, 6, 3, 5,
   3, 4, 5, 2, 8, 6, 1, 7, 9]

/-- The "easy" puzzle: `solvedGrid` with one cell emptied in every row, column
and box. -/
def easyPuzzle : List Int :=
  [0, 3, 4, 6, 7, 8, 9, 1, 2,
   6, 7, 2, 0, 9, 5, 3, 4, 8,
   1, 9, 8, 3, 4, 2, 0, 6, 7,
   8, 0, 9, 7, 6, 1, 4, 2, 3,
   4, 2, 6, 8, 0, 3, 7, 9, 1,
   7, 1, 3, 9, 2, 4, 8, 0, 6,
   9, 6, 0, 5, 3, 7, 2, 8, 4,
   2, 8, 7, 4, 1, 0, 6, 3, 5,
   3, 4, 5, 2, 8, 6, 1, 7, 0]

/-- An output buffer of 81 zeros. -/
def blank : List Int := List.replicate 81 0

/-- A full grid with a clash: `solvedGrid` with its last cell overwritten by
`7`, so that the last row holds `7` twice. -/
def clashGrid : List Int := solvedGrid.set 80 7

/-- A puzzle with consistent givens and no completion: the first cell is empty,
its row holds `1..8` and its column holds `9`. -/
def stuckGrid : List Int :=
  [0, 1, 2, 3, 4, 5, 6, 7, 8, 9] ++ List.replicate 71 0

/-- The quarter turn of `rotate_cell` on cell numbers: `(row, col)` goes to
`(col, 8 - row)`. -/
def rot1 (i : Nat) : Nat := i % 9 * 9 + (8 - i / 9)

/-- The score `best_rotation` computes for the `j`-rotation of `g`, with the
weight table built over the previous contents `w` and the rotation written
into a buffer holding `b`. -/
def score (g : List Int) (w : List Nat) (b : List Int) (j : Int) : Nat :=
  difficulty (rotate_times g j b) (fib_weights w)

/-- A grid whose only empty cell is cell 0: the half turn moves that cell to
index 80, where the weight is least. -/
def cornerPuzzle : List Int := solvedGrid.set 0 0

/-- The weight table, built over a buffer of zeros. -/
def weightTable : List Nat := fib_weights (List.replicate 81 0)

/-- The sum of the weights `w[i]` over the cells `i` of `g` that are empty,
computed over the natural numbers. -/
def emptyWeight (g : List Int) (w : List Nat) : Nat :=
  ∑ i in (Finset.range 81).filter (fun i => cell g i = 0), w.getD i 0

/-- The Fibonacci numbers with `fibo 1 = fibo 2 = 1`. -/
def fibo : Nat → Nat
  | 0 => 0
  | 1 => 1
  | n + 2 => fibo n + fibo (n + 1)

/-- The sum of the weights of the empty cells among the first `n` cells, over
the natural numbers. -/
def emptyWeightUpTo (g : List Int) (w : List Nat) : Nat → Nat
  | 0 => 0
  | n + 1 => emptyWeightUpTo g w n + (if cell g n = 0 then w.getD n 0 else 0)

/-- The sum of the first `n` weights, over the natural numbers. -/
def weightUpTo (w : List Nat) : Nat → Nat
  | 0 => 0
  | n + 1 => weightUpTo w n + w.getD n 0

/-- The memory at the start of a further run `solve(g, out)` in the same
process, after a run that ended in the state `s`: the working grid and the
output buffer are those of the new call, the `static` latch and the counter of
copies are what the earlier run left. -/
def next (s : State) (g out : List Int) : State :=
  { sudoku := g, solved := out, is_solved := s.is_solved, copies := s.copies }

/-- The full grid of 81 ones. -/
def onesGrid : List Int := List.replicate 81 1

/-- The memory after the run on `easyPuzzle` from a clear latch. -/
def easyDone : State :=
  { sudoku := easyPuzzle, solved := solvedGrid, is_solved := true, copies := 1 }

/-- The loop of `fib_weights` computed over the natural numbers, with no
reduction modulo `2 ^ 64`: the reference the 64-bit loop is compared with. -/
def fib_weights_exact_loop : Nat → List Nat → Nat → Nat → List Nat
  | 0, w, _, _ => w
  | i + 1, w, a, b =>
    let wi := a + b
    fib_weights_exact_loop i (w.set i wi) b wi

/-- The weight table computed over the natural numbers. -/
def fib_weights_exact (w : List Nat) : List Nat := fib_weights_exact_loop 81 w 0 1

/-- The score of a grid computed over the natural numbers, with no reduction
modulo `2 ^ 64`. -/
def difficulty_exact (sudoku : List Int) (weights : List Nat) : Nat :=
  (List.range 81).foldl
    (fun diff (i : Nat) => if sudoku.getD i 0 = 0 then diff + weights.getD i 0 else diff) 0

/-! Theorems. -/

theorem cell_of_getElem_some {g : List Int} {i : Nat} {v : Int} (h : g[i]? = some v) :
    cell g i = v := by
  simp [cell, List.getD, h]

theorem getElem_some_cell {g : List Int} {i : Nat} (h : i < g.length) :
    g[i]? = some (cell g i) := by
  simp [cell, List.getD, List.getElem?_eq_getElem h]

theorem stores_succ (p : Nat → Nat) (v : Nat → Int) (n : Nat) (b : List Int) :
    stores p v (n + 1) b = (stores p v n b).set (p n) (v n) := by
  simp [stores, List.range_succ, List.foldl_append]

theorem stores_length (p : Nat → Nat) (v : Nat → Int) (n : Nat) (b : List Int) :
    (stores p v n b).length = b.length := by
  induction n with
  | zero => simp [stores]
  | succ n ih => rw [stores_succ, List.length_set, ih]

theorem stores_get (p : Nat → Nat) (v : Nat → Int) (b : List Int) (n : Nat)
    (hinj : ∀ i < n, ∀ j < n, p i = p j → i = j) (hlt : ∀ i < n, p i < b.length)
    (i : Nat) (hi : i < n) : (stores p v n b)[p i]? = some (v i) := by
  induction n with
  | zero => omega
  | succ n ih =>
    rw [stores_succ, List.getElem?_set]
    by_cases h : p n = p i
    · have : n = i := hinj n (by omega) i hi h
      subst this
      simp [stores_length, hlt n hi]
    · have hi' : i < n := by
        rcases Nat.lt_succ_iff_lt_or_eq.mp hi with h' | h'
        · exact h'
        · subst h'; exact absurd rfl h
      simp only [h, if_false]
      exact ih (fun a ha b hb => hinj a (by omega) b (by omega)) (fun a ha => hlt a (by omega)) hi'

theorem copy_array_eq (a b : List Int) (ha : a.length = 81) (hb : b.length = 81) :
    copy_array a b 81 = a := by
  have hs : copy_array a b 81 = stores id (cell a) 81 b := rfl
  rw [hs]
  apply List.ext_getElem?
  intro j
  by_cases hj : j < 81
  · have := stores_get id (cell a) b 81 (fun _ _ _ _ h => h) (fun i hi => by simpa [hb] using hi) j hj
    simp only [id] at this
    rw [this, getElem_some_cell (by omega)]
  · rw [List.getElem?_eq_none (by rw [stores_length]; omega), List.getElem?_eq_none (by omega)]


set_option maxRecDepth 1000000 in
theorem neighbours_entries : ∀ i < 81,
    (neighbours ((i : Nat) : Int)).length = 27 ∧
    (∀ t < 9, (neighbours ((i : Nat) : Int))[t]? = some (((i / 9 * 9 + t : Nat)) : Int)) ∧
    (∀ t < 9, (neighbours ((i : Nat) : Int))[9 + t]? = some (((i % 9 + 9 * t : Nat)) : Int)) ∧
    (∀ j < 3, ∀ k < 3, (neighbours ((i : Nat) : Int))[18 + 3 * j + k]? =
      some ((((3 * (i / 9 / 3) + j) * 9 + (3 * (i % 9 / 3) + k) : Nat)) : Int)) := by
  decide

set_option maxRecDepth 1000000 in
theorem neighbours_eq_cells : ∀ i < 81, neighbours ((i : Nat) : Int) =
    (rowCells (i / 9) ++ colCells (i % 9) ++ boxCells (i / 9 / 3) (i % 9 / 3)).map
      (fun (n : Nat) => (n : Int)) := by
  decide

theorem mem_rowCells (r n : Nat) : n ∈ rowCells r ↔ n / 9 = r := by
  simp only [rowCells, List.mem_map, List.mem_range]
  constructor
  · rintro ⟨k, hk, rfl⟩; omega
  · intro h; exact ⟨n % 9, by omega, by omega⟩

theorem mem_colCells (c n : Nat) (hc : c < 9) : n ∈ colCells c ↔ n % 9 = c ∧ n < 81 := by
  simp only [colCells, List.mem_map, List.mem_range]
  constructor
  · rintro ⟨k, hk, rfl⟩; omega
  · intro h; exact ⟨n / 9, by omega, by omega⟩

theorem mem_boxCells (br bc n : Nat) (hc : bc < 3) :
    n ∈ boxCells br bc ↔ n / 27 = br ∧ n % 9 / 3 = bc := by
  simp only [boxCells, List.mem_flatMap, List.mem_map, List.mem_range]
  constructor
  · rintro ⟨j, hj, k, hk, rfl⟩; omega
  · intro h; exact ⟨n / 9 % 3, by omega, n % 3, by omega, by omega⟩

theorem mem_neighbours_iff (i : Nat) (hi : i < 81) (x : Int) :
    x ∈ neighbours (i : Int) ↔ ∃ n : Nat, n < 81 ∧ x = (n : Int) ∧ Peer i n := by
  rw [neighbours_eq_cells i hi]
  simp only [List.mem_map, List.mem_append, mem_rowCells, mem_colCells _ _ (show i % 9 < 9 by omega),
    mem_boxCells _ _ _ (show i % 9 / 3 < 3 by omega), Peer]
  constructor
  · rintro ⟨n, hn, rfl⟩
    refine ⟨n, ?_, rfl, ?_⟩
    · omega
    · omega
  · rintro ⟨n, hn, rfl, hp⟩
    exact ⟨n, by omega, rfl⟩

theorem mem_peerCells (i n : Nat) (hi : i < 81) : n ∈ peerCells i ↔ n < 81 ∧ Peer i n := by
  simp only [peerCells, List.mem_append, mem_rowCells, mem_colCells _ _ (show i % 9 < 9 by omega),
    mem_boxCells _ _ _ (show i % 9 / 3 < 3 by omega), Peer]
  omega

theorem neighbours_eq_peerCells (i : Nat) (hi : i < 81) :
    neighbours (i : Int) = (peerCells i).map (fun (n : Nat) => (n : Int)) :=
  neighbours_eq_cells i hi

theorem rd_nat (g : List Int) (n : Nat) (h : n < g.length) : rd g (n : Int) = some (cell g n) := by
  have : ¬ ((n : Int) < 0) := by omega
  simp [rd, this, getElem_some_cell h]

theorem rd_neg (g : List Int) (i : Int) (h : i < 0) : rd g i = none := by
  simp [rd, h]

theorem valid_attempt_loop_inrange (g : List Int) (a : Int) (ns : List Nat)
    (h : ∀ n ∈ ns, n < g.length) :
    valid_attempt_loop g a (ns.map (fun (n : Nat) => (n : Int))) =
      if ∃ n ∈ ns, cell g n = a then some 0 else some 1 := by
  induction ns with
  | nil => simp [valid_attempt_loop]
  | cons n ns ih =>
    have hn : n < g.length := h n (List.mem_cons_self _ _)
    have ih' := ih (fun m hm => h m (List.mem_cons_of_mem _ hm))
    simp only [List.map_cons, valid_attempt_loop, rd_nat g n hn]
    by_cases hv : cell g n = a
    · simp [hv]
    · simp only [hv, if_false, ih', List.mem_cons, exists_eq_or_imp, false_or]

theorem valid_attempt_loop_cases (g : List Int) (a : Int) (ns : List Nat)
    (h : ∀ n ∈ ns, n < g.length) :
    ((∃ n ∈ ns, cell g n = a) ∧
        valid_attempt_loop g a (ns.map (fun (n : Nat) => (n : Int))) = some 0) ∨
      ((¬ ∃ n ∈ ns, cell g n = a) ∧
        valid_attempt_loop g a (ns.map (fun (n : Nat) => (n : Int))) = some 1) := by
  have := valid_attempt_loop_inrange g a ns h
  by_cases hx : ∃ n ∈ ns, cell g n = a
  · left; exact ⟨hx, by rw [this, if_pos hx]⟩
  · right; exact ⟨hx, by rw [this, if_neg hx]⟩

theorem valid_attempt_cases (g : List Int) (a : Int) (c : Nat) (hg : g.length = 81) (hc : c < 81) :
    ((∃ n, n < 81 ∧ Peer c n ∧ cell g n = a) ∧ valid_attempt g a (c : Int) = some 0) ∨
      ((¬ ∃ n, n < 81 ∧ Peer c n ∧ cell g n = a) ∧ valid_attempt g a (c : Int) = some 1) := by
  have hiff : (∃ n ∈ peerCells c, cell g n = a) ↔ (∃ n, n < 81 ∧ Peer c n ∧ cell g n = a) := by
    constructor
    · rintro ⟨n, hn, hv⟩
      rw [mem_peerCells c n hc] at hn
      exact ⟨n, hn.1, hn.2, hv⟩
    · rintro ⟨n, h1, h2, h3⟩
      exact ⟨n, (mem_peerCells c n hc).2 ⟨h1, h2⟩, h3⟩
  have hr : ∀ n ∈ peerCells c, n < g.length := by
    intro n hn
    rw [mem_peerCells c n hc] at hn
    omega
  unfold valid_attempt
  rw [neighbours_eq_peerCells c hc, ← hiff]
  exact valid_attempt_loop_cases g a (peerCells c) hr

theorem first_empty_loop_spec (g : List Int) : ∀ n i,
    (first_empty_loop g n i = -1 ∧ ∀ j, i ≤ j → j < i + n → cell g j ≠ 0) ∨
    (∃ k : Nat, i ≤ k ∧ k < i + n ∧ first_empty_loop g n i = (k : Int) ∧ cell g k = 0 ∧
      ∀ j, i ≤ j → j < k → cell g j ≠ 0) := by
  intro n
  induction n with
  | zero =>
    intro i
    left
    exact ⟨rfl, fun j h1 h2 => by omega⟩
  | succ n ih =>
    intro i
    by_cases h0 : cell g i = 0
    · right
      refine ⟨i, le_refl _, by omega, ?_, h0, fun j h1 h2 => by omega⟩
      have : g.getD i 0 = 0 := h0
      unfold first_empty_loop
      rw [if_pos this]
    · have hne : ¬ (g.getD i 0 = 0) := h0
      rcases ih (i + 1) with ⟨h1, h2⟩ | ⟨k, hk1, hk2, hk3, hk4, hk5⟩
      · left
        refine ⟨by unfold first_empty_loop; rw [if_neg hne, h1], ?_⟩
        intro j hj1 hj2
        by_cases hji : j = i
        · subst hji; exact h0
        · exact h2 j (by omega) (by omega)
      · right
        refine ⟨k, by omega, by omega, by unfold first_empty_loop; rw [if_neg hne, hk3], hk4, ?_⟩
        intro j hj1 hj2
        by_cases hji : j = i
        · subst hji; exact h0
        · exact hk5 j (by omega) hj2

theorem first_empty_spec (g : List Int) :
    (first_empty g = -1 ∧ ∀ j, j < 81 → cell g j ≠ 0) ∨
    (∃ k : Nat, k < 81 ∧ first_empty g = (k : Int) ∧ cell g k = 0 ∧ ∀ j, j < k → cell g j ≠ 0) := by
  rcases first_empty_loop_spec g 81 0 with ⟨h1, h2⟩ | ⟨k, _, hk2, hk3, hk4, hk5⟩
  · left
    exact ⟨h1, fun j hj => h2 j (Nat.zero_le _) (by omega)⟩
  · right
    exact ⟨k, by omega, hk3, hk4, fun j hj => hk5 j (Nat.zero_le _) hj⟩


set_option maxRecDepth 100000 in
theorem groups_facts : ∀ grp ∈ groups,
    grp.Nodup ∧ grp.length = 9 ∧ ∀ i ∈ grp, i < 81 ∧ ∀ j ∈ grp, Peer i j := by
  decide

set_option maxRecDepth 100000 in
theorem rowCells_mem_groups : ∀ r < 9, rowCells r ∈ groups := by decide

set_option maxRecDepth 100000 in
theorem colCells_mem_groups : ∀ c < 9, colCells c ∈ groups := by decide

set_option maxRecDepth 100000 in
theorem boxCells_mem_groups : ∀ br < 3, ∀ bc < 3, boxCells br bc ∈ groups := by decide

theorem peer_group (i j : Nat) (hi : i < 81) (hj : j < 81) (h : Peer i j) :
    ∃ grp ∈ groups, i ∈ grp ∧ j ∈ grp := by
  rcases h with h | h | h
  · exact ⟨rowCells (i / 9), rowCells_mem_groups _ (by omega),
      (mem_rowCells _ _).2 rfl, (mem_rowCells _ _).2 h.symm⟩
  · exact ⟨colCells (i % 9), colCells_mem_groups _ (by omega),
      (mem_colCells _ _ (by omega)).2 ⟨rfl, hi⟩, (mem_colCells _ _ (by omega)).2 ⟨h.symm, hj⟩⟩
  · exact ⟨boxCells (i / 27) (i % 9 / 3), boxCells_mem_groups _ (by omega) _ (by omega),
      (mem_boxCells _ _ _ (by omega)).2 ⟨rfl, rfl⟩,
      (mem_boxCells _ _ _ (by omega)).2 ⟨h.1.symm, h.2.symm⟩⟩

theorem peer_refl (i : Nat) : Peer i i := Or.inl rfl

theorem peer_symm {i j : Nat} (h : Peer i j) : Peer j i := by
  unfold Peer at *
  omega

theorem nodup_digits : ([1, 2, 3, 4, 5, 6, 7, 8, 9] : List Int).Nodup := by decide

theorem mem_digits (v : Int) : v ∈ ([1, 2, 3, 4, 5, 6, 7, 8, 9] : List Int) ↔ 1 ≤ v ∧ v ≤ 9 := by
  simp only [List.mem_cons, List.mem_singleton, List.not_mem_nil, or_false]
  omega

theorem ValidGrid.range {f : List Int} (hf : ValidGrid f) (i : Nat) (hi : i < 81) :
    1 ≤ cell f i ∧ cell f i ≤ 9 := by
  have hp := hf.2 (rowCells (i / 9)) (rowCells_mem_groups _ (by omega))
  have hm : cell f i ∈ (rowCells (i / 9)).map (cell f) :=
    List.mem_map_of_mem _ ((mem_rowCells _ _).2 rfl)
  exact (mem_digits _).1 (hp.mem_iff.1 hm)

theorem ValidGrid.distinct {f : List Int} (hf : ValidGrid f) (i j : Nat) (hi : i < 81)
    (hj : j < 81) (hij : i ≠ j) (hp : Peer i j) : cell f i ≠ cell f j := by
  obtain ⟨grp, hg, hig, hjg⟩ := peer_group i j hi hj hp
  have hnd : (grp.map (cell f)).Nodup := (hf.2 grp hg).nodup_iff.2 nodup_digits
  intro he
  exact hij (List.inj_on_of_nodup_map hnd hig hjg he)

theorem validGrid_of_distinct {f : List Int} (hl : f.length = 81)
    (hr : ∀ i < 81, 1 ≤ cell f i ∧ cell f i ≤ 9)
    (hd : ∀ i < 81, ∀ j < 81, i ≠ j → Peer i j → cell f i ≠ cell f j) : ValidGrid f := by
  refine ⟨hl, fun grp hg => ?_⟩
  obtain ⟨hnd, hlen, hmem⟩ := groups_facts grp hg
  have hnd' : (grp.map (cell f)).Nodup := by
    apply List.Nodup.map_on _ hnd
    intro x hx y hy hxy
    by_contra hne
    exact hd x (hmem x hx).1 y (hmem y hy).1 hne ((hmem x hx).2 y hy) hxy
  have hsub : grp.map (cell f) ⊆ [1, 2, 3, 4, 5, 6, 7, 8, 9] := by
    intro v hv
    obtain ⟨x, hx, rfl⟩ := List.mem_map.1 hv
    exact (mem_digits _).2 (hr x (hmem x hx).1)
  exact (List.subperm_of_subset hnd' hsub).perm_of_length_le (by simp [hlen])

theorem ValidGrid.consistent {f : List Int} (hf : ValidGrid f) : Consistent f :=
  fun i hi j hj h => hf.distinct i j hi hj h.1 h.2.1

theorem ValidGrid.isGrid {f : List Int} (hf : ValidGrid f) : IsGrid f :=
  ⟨hf.1, fun i hi => ⟨by have := hf.range i hi; omega, (hf.range i hi).2⟩⟩


theorem cell_set (g : List Int) (c : Nat) (d : Int) (i : Nat) (hc : c < g.length) :
    cell (g.set c d) i = if i = c then d else cell g i := by
  unfold cell
  simp only [List.getD_eq_getElem?_getD, List.getElem?_set]
  by_cases h : c = i
  · subst h; simp [hc]
  · have h' : ¬ i = c := fun e => h e.symm
    simp [h, h']

theorem cell_set_self (g : List Int) (c : Nat) (d : Int) (hc : c < g.length) :
    cell (g.set c d) c = d := by
  rw [cell_set g c d c hc, if_pos rfl]

theorem cell_set_ne (g : List Int) (c : Nat) (d : Int) (i : Nat) (hc : c < g.length)
    (h : i ≠ c) : cell (g.set c d) i = cell g i := by
  rw [cell_set g c d i hc, if_neg h]

theorem set_set_back (g : List Int) (c : Nat) (d : Int) (hc : c < g.length)
    (h0 : cell g c = 0) : (g.set c d).set c 0 = g := by
  apply List.ext_getElem?
  intro j
  rw [List.set_set, List.getElem?_set]
  by_cases h : c = j
  · subst h
    simp only [if_true, hc]
    rw [getElem_some_cell hc, h0]
  · simp [h]

theorem grid_ext {a b : List Int} (ha : a.length = 81) (hb : b.length = 81)
    (h : ∀ i < 81, cell a i = cell b i) : a = b := by
  apply List.ext_getElem?
  intro j
  by_cases hj : j < 81
  · rw [getElem_some_cell (by omega), getElem_some_cell (by omega), h j hj]
  · rw [List.getElem?_eq_none (by omega), List.getElem?_eq_none (by omega)]

theorem empties_le (g : List Int) : empties g ≤ 81 := by
  unfold empties
  calc ((Finset.range 81).filter (fun i => cell g i = 0)).card
      ≤ (Finset.range 81).card := Finset.card_filter_le _ _
    _ = 81 := Finset.card_range 81

theorem empties_pos (g : List Int) (c : Nat) (hc : c < 81) (h0 : cell g c = 0) :
    0 < empties g := by
  unfold empties
  apply Finset.card_pos.2
  exact ⟨c, Finset.mem_filter.2 ⟨Finset.mem_range.2 hc, h0⟩⟩

theorem empties_set_lt (g : List Int) (c : Nat) (d : Int) (hl : g.length = 81) (hc : c < 81)
    (h0 : cell g c = 0) (hd : d ≠ 0) : empties (g.set c d) < empties g := by
  unfold empties
  apply Finset.card_lt_card
  rw [Finset.ssubset_iff_of_subset]
  · refine ⟨c, Finset.mem_filter.2 ⟨Finset.mem_range.2 hc, h0⟩, ?_⟩
    intro hm
    have := (Finset.mem_filter.1 hm).2
    rw [cell_set_self g c d (by omega)] at this
    exact hd this
  · intro i hi
    have h1 := Finset.mem_filter.1 hi
    refine Finset.mem_filter.2 ⟨h1.1, ?_⟩
    have h2 := h1.2
    rw [cell_set g c d i (by omega)] at h2
    by_cases hic : i = c
    · subst hic; exact h0
    · rwa [if_neg hic] at h2

theorem isGrid_set {g : List Int} (hg : IsGrid g) (c : Nat) (d : Int) (hd : 0 ≤ d ∧ d ≤ 9) :
    IsGrid (g.set c d) := by
  refine ⟨by rw [List.length_set]; exact hg.1, fun i hi => ?_⟩
  by_cases hc : c < g.length
  · rw [cell_set g c d i hc]
    by_cases h : i = c
    · rw [if_pos h]; exact hd
    · rw [if_neg h]; exact hg.2 i hi
  · rw [List.set_eq_of_length_le (by omega)]
    exact hg.2 i hi

theorem consistent_set {g : List Int} (hl : g.length = 81) (hg : Consistent g) (c : Nat)
    (d : Int) (hc : c < 81) (h0 : cell g c = 0)
    (hv : ¬ ∃ n, n < 81 ∧ Peer c n ∧ cell g n = d) : Consistent (g.set c d) := by
  intro i hi j hj ⟨hij, hp, hnz⟩
  rw [cell_set g c d i (by omega)] at hnz ⊢
  rw [cell_set g c d j (by omega)]
  by_cases h1 : i = c
  · subst h1
    have h2 : ¬ j = i := fun e => hij e.symm
    rw [if_pos rfl, if_neg h2]
    intro he
    exact hv ⟨j, hj, hp, he.symm⟩
  · rw [if_neg h1] at hnz ⊢
    by_cases h2 : j = c
    · subst h2
      rw [if_pos rfl]
      intro he
      exact hv ⟨i, hi, peer_symm hp, he⟩
    · rw [if_neg h2]
      exact hg i hi j hj ⟨hij, hp, hnz⟩

theorem completion_of_set {g f : List Int} (c : Nat) (d : Int) (hl : g.length = 81)
    (hc : c < 81) (h0 : cell g c = 0) (h : Completion (g.set c d) f) : Completion g f := by
  refine ⟨h.1, fun i hi hnz => ?_⟩
  have hic : i ≠ c := fun e => hnz (e ▸ h0)
  have := h.2 i hi
  rw [cell_set_ne g c d i (by omega) hic] at this
  exact this hnz

theorem completion_set_cell {g f : List Int} (c : Nat) (d : Int) (hl : g.length = 81)
    (hc : c < 81) (hd : d ≠ 0) (h : Completion (g.set c d) f) : cell f c = d := by
  have := h.2 c hc
  rw [cell_set_self g c d (by omega)] at this
  exact this hd

theorem completion_set_of {g f : List Int} (c : Nat) (hl : g.length = 81) (hc : c < 81)
    (h : Completion g f) : Completion (g.set c (cell f c)) f := by
  refine ⟨h.1, fun i hi hnz => ?_⟩
  rw [cell_set g c _ i (by omega)] at hnz ⊢
  by_cases hic : i = c
  · rw [if_pos hic, hic]
  · rw [if_neg hic] at hnz ⊢
    exact h.2 i hi hnz

theorem noCompletion_set_of_peer {g : List Int} (c : Nat) (d : Int) (hl : g.length = 81)
    (hc : c < 81) (h0 : cell g c = 0) (hd : d ≠ 0)
    (hv : ∃ n, n < 81 ∧ Peer c n ∧ cell g n = d) : NoCompletion (g.set c d) := by
  rintro ⟨f, hf⟩
  obtain ⟨n, hn, hp, hnd⟩ := hv
  have hnc : n ≠ c := fun e => hd (by rw [← hnd, e, h0])
  have h1 : cell f c = d := completion_set_cell c d hl hc hd hf
  have h2 : cell f n = d := by
    have := hf.2 n hn
    rw [cell_set_ne g c d n (by omega) hnc, hnd] at this
    exact this hd
  exact hf.1.distinct c n hc hn (fun e => hnc e.symm) hp (h1.trans h2.symm)

theorem completion_consistent {g f : List Int} (h : Completion g f) : Consistent g := by
  intro i hi j hj ⟨hij, hp, hnz⟩ he
  have h1 := h.2 i hi hnz
  have h2 := h.2 j hj (he ▸ hnz)
  exact h.1.distinct i j hi hj hij hp (by rw [h1, h2, he])

theorem completion_full {g f : List Int} (hl : g.length = 81)
    (hfull : ∀ i, i < 81 → cell g i ≠ 0) (h : Completion g f) : f = g :=
  grid_ext h.1.1 hl (fun i hi => h.2 i hi (hfull i hi))

theorem validGrid_of_full {g : List Int} (hg : IsGrid g) (hc : Consistent g)
    (hfull : ∀ i, i < 81 → cell g i ≠ 0) : ValidGrid g := by
  apply validGrid_of_distinct hg.1
  · intro i hi
    have := hg.2 i hi
    have := hfull i hi
    omega
  · intro i hi j hj hij hp
    exact hc i hi j hj ⟨hij, hp, hfull i hi⟩


theorem wr_nat (g : List Int) (c : Nat) (v : Int) (hc : c < g.length) :
    wr g (c : Int) v = some (g.set c v) := by
  have h1 : (0 : Int) ≤ (c : Int) := by omega
  simp [wr, hc]

theorem solve_loop_skip (call : State → Outcome) (c : Int) (ds : List Int) (s : State)
    (h : ∀ d ∈ ds, valid_attempt s.sudoku d c = some 0) : solve_loop call c ds s = .ret s := by
  induction ds with
  | nil => rfl
  | cons d ds ih =>
    rw [solve_loop, h d (List.mem_cons_self _ _)]
    simp only [ne_eq, not_true_eq_false, if_false]
    exact ih (fun x hx => h x (List.mem_cons_of_mem _ hx))

theorem solve_loop_latched (call : State → Outcome) (c : Nat) (ds : List Int) (s : State)
    (hl : s.sudoku.length = 81) (hc : c < 81) (h0 : cell s.sudoku c = 0)
    (hs : s.is_solved = true) (hcall : ∀ t : State, t.is_solved = true → call t = .ret t) :
    solve_loop call (c : Int) ds s = .ret s := by
  induction ds with
  | nil => rfl
  | cons d ds ih =>
    rw [solve_loop]
    rcases valid_attempt_cases s.sudoku d c hl hc with ⟨_, hv⟩ | ⟨_, hv⟩
    · rw [hv]
      simp only [ne_eq, not_true_eq_false, if_false]
      exact ih
    · rw [hv]
      simp only [ne_eq, one_ne_zero, not_false_eq_true, if_true]
      rw [wr_nat _ _ _ (by omega)]
      simp only []
      rw [hcall { s with sudoku := s.sudoku.set c d } hs]
      simp only []
      rw [wr_nat _ _ _ (by rw [List.length_set]; omega), set_set_back _ _ _ (by omega) h0]
      exact ih

theorem solve_loop_search (call : State → Outcome) (g : List Int) (c : Nat) (out : List Int)
    (k : Nat) (hl : g.length = 81) (hc : c < 81) (h0 : cell g c = 0)
    (hlatched : ∀ t : State, t.is_solved = true → call t = .ret t)
    (hcall : ∀ d : Int, 1 ≤ d ∧ d ≤ 9 → (¬ ∃ n, n < 81 ∧ Peer c n ∧ cell g n = d) →
      ∃ s', call { sudoku := g.set c d, solved := out, is_solved := false, copies := k } = .ret s' ∧
        SolvePost (g.set c d) out k s') :
    ∀ ds : List Int, (∀ d ∈ ds, 1 ≤ d ∧ d ≤ 9) →
      ∃ s', solve_loop call (c : Int) ds
          { sudoku := g, solved := out, is_solved := false, copies := k } = .ret s' ∧
        LoopPost g c out k ds s' := by
  intro ds
  induction ds with
  | nil => intro _; exact ⟨_, rfl, rfl⟩
  | cons d ds ih =>
    intro hds
    have hd := hds d (List.mem_cons_self _ _)
    obtain ⟨s', hs', hpost⟩ := ih (fun x hx => hds x (List.mem_cons_of_mem _ hx))
    rw [solve_loop]
    rcases valid_attempt_cases g d c hl hc with ⟨hex, hv⟩ | ⟨hnex, hv⟩
    · simp only [hv, ne_eq, not_true_eq_false, if_false]
      exact ⟨s', hs', Or.inr ⟨noCompletion_set_of_peer c d hl hc h0 (by omega) hex, hpost⟩⟩
    · simp only [hv, ne_eq, one_ne_zero, not_false_eq_true, if_true]
      rw [wr_nat _ _ _ (by omega)]
      simp only []
      obtain ⟨s2, hs2, hsud, hcase⟩ := hcall d hd hnex
      rw [hs2]
      simp only []
      rw [hsud, wr_nat _ _ _ (by rw [List.length_set]; omega), set_set_back _ _ _ (by omega) h0]
      simp only []
      rcases hcase with ⟨hno, h1, h2, h3⟩ | hfound
      · have : ({ s2 with sudoku := g } : State) =
            { sudoku := g, solved := out, is_solved := false, copies := k } := by
          cases s2; simp_all
        rw [this]
        exact ⟨s', hs', Or.inr ⟨hno, hpost⟩⟩
      · refine ⟨{ s2 with sudoku := g }, ?_, Or.inl ⟨rfl, hfound⟩⟩
        exact solve_loop_latched call c ds _ hl hc h0 hfound.1 hlatched


theorem lexLe_of_cell_lt {g a b : List Int} (c : Nat) (hc : c < 81) (ha : Completion g a)
    (hb : Completion g b) (hpre : ∀ q, q < c → cell g q ≠ 0) (hlt : cell a c < cell b c) :
    LexLe a b :=
  Or.inr ⟨c, hc, fun q hq => by
    rw [ha.2 q (by omega) (hpre q hq), hb.2 q (by omega) (hpre q hq)], hlt⟩

theorem loopPost_final (g : List Int) (c : Nat) (out : List Int) (k : Nat) (hl : g.length = 81)
    (hc : c < 81) (h0 : cell g c = 0) (hpre : ∀ q, q < c → cell g q ≠ 0) :
    ∀ (ds : List Int) (s' : State), ds.Pairwise (· < ·) → (∀ d ∈ ds, d ≠ 0) →
      LoopPost g c out k ds s' →
      (s' = { sudoku := g, solved := out, is_solved := false, copies := k } ∧
          ∀ d ∈ ds, NoCompletion (g.set c d)) ∨
        (s'.sudoku = g ∧ s'.is_solved = true ∧ s'.copies = k + 1 ∧ Completion g s'.solved ∧
          ∀ f, Completion g f → cell f c ∈ ds → LexLe s'.solved f) := by
  intro ds
  induction ds with
  | nil =>
    intro s' _ _ h
    exact Or.inl ⟨h, fun d hd => absurd hd (List.not_mem_nil _)⟩
  | cons d ds ih =>
    intro s' hpw hnz h
    have hd : d ≠ 0 := hnz d (List.mem_cons_self _ _)
    rcases h with ⟨hsud, hsol, hcop, hcomp, hlex⟩ | ⟨hno, hrest⟩
    · right
      have hcg : Completion g s'.solved := completion_of_set c d hl hc h0 hcomp
      refine ⟨hsud, hsol, hcop, hcg, fun f hf hmem => ?_⟩
      rcases List.mem_cons.1 hmem with he | hin
      · apply hlex
        rw [← he]
        exact completion_set_of c hl hc hf
      · have hlt : d < cell f c := (List.pairwise_cons.1 hpw).1 _ hin
        apply lexLe_of_cell_lt c hc hcg hf hpre
        rw [completion_set_cell c d hl hc hd hcomp]
        exact hlt
    · rcases ih s' (List.pairwise_cons.1 hpw).2 (fun x hx => hnz x (List.mem_cons_of_mem _ hx))
        hrest with ⟨hs, hall⟩ | ⟨hsud, hsol, hcop, hcg, hlex⟩
      · left
        refine ⟨hs, fun x hx => ?_⟩
        rcases List.mem_cons.1 hx with he | hin
        · rw [he]; exact hno
        · exact hall x hin
      · right
        refine ⟨hsud, hsol, hcop, hcg, fun f hf hmem => ?_⟩
        rcases List.mem_cons.1 hmem with he | hin
        · exfalso
          apply hno
          refine ⟨f, ?_⟩
          rw [← he]
          exact completion_set_of c hl hc hf
        · exact hlex f hf hin

theorem valid_attempt_loop_prefix (g : List Int) (a : Int) (rest : List Int) :
    ∀ pre : List Nat, (∀ n ∈ pre, n < g.length) → (∃ n ∈ pre, cell g n = a) →
      valid_attempt_loop g a (pre.map (fun (n : Nat) => (n : Int)) ++ rest) = some 0 := by
  intro pre
  induction pre with
  | nil => rintro _ ⟨n, hn, _⟩; exact absurd hn (List.not_mem_nil _)
  | cons m pre ih =>
    intro hr hex
    simp only [List.map_cons, List.cons_append, valid_attempt_loop,
      rd_nat g m (hr m (List.mem_cons_self _ _))]
    by_cases hv : cell g m = a
    · simp [hv]
    · simp only [hv, if_false]
      apply ih (fun n hn => hr n (List.mem_cons_of_mem _ hn))
      obtain ⟨n, hn, hna⟩ := hex
      rcases List.mem_cons.1 hn with he | hin
      · exact absurd (he ▸ hna) hv
      · exact ⟨n, hin, hna⟩

theorem neighbours_neg_one : neighbours (-1) =
    (rowCells 0).map (fun (n : Nat) => (n : Int)) ++
      [-1, 8, 17, 26, 35, 44, 53, 62, 71, 0, 1, 2, 9, 10, 11, 18, 19, 20] := by
  decide

theorem valid_attempt_fallthrough (g : List Int) (hv : ValidGrid g) (d : Int)
    (hd : 1 ≤ d ∧ d ≤ 9) : valid_attempt g d (-1) = some 0 := by
  unfold valid_attempt
  rw [neighbours_neg_one]
  apply valid_attempt_loop_prefix
  · intro n hn
    rw [mem_rowCells] at hn
    have := hv.1
    omega
  · have hp := hv.2 (rowCells 0) (rowCells_mem_groups 0 (by omega))
    have : d ∈ (rowCells 0).map (cell g) := hp.mem_iff.2 ((mem_digits d).2 hd)
    obtain ⟨n, hn, hnd⟩ := List.mem_map.1 this
    exact ⟨n, hn, hnd⟩

theorem solve_latched (n : Nat) (t : State) (ht : t.is_solved = true) :
    solve (n + 1) t = .ret t := by
  rw [solve]
  simp [ht]

theorem solve_full (n : Nat) (g out : List Int) (k : Nat) (hg : IsGrid g) (hc : Consistent g)
    (hout : out.length = 81) (hfe : first_empty g = -1) (hfull : ∀ j, j < 81 → cell g j ≠ 0) :
    ∃ s', solve (n + 1) { sudoku := g, solved := out, is_solved := false, copies := k } = .ret s' ∧
      SolvePost g out k s' := by
  have hv : ValidGrid g := validGrid_of_full hg hc hfull
  refine ⟨{ sudoku := g, solved := g, is_solved := true, copies := k + 1 }, ?_, rfl, Or.inr ?_⟩
  · rw [solve]
    simp only [hfe, if_true, copy_array_eq g out hg.1 hout]
    apply solve_loop_skip
    intro d hd
    exact valid_attempt_fallthrough g hv d ((mem_digits d).1 hd)
  · refine ⟨rfl, rfl, ⟨hv, fun _ _ _ => rfl⟩, fun f hf => Or.inl ?_⟩
    exact (completion_full hg.1 hfull hf).symm

theorem solve_spec : ∀ (e : Nat) (g : List Int), IsGrid g → Consistent g → empties g ≤ e →
    ∀ n, e + 1 ≤ n → ∀ (out : List Int) (k : Nat), out.length = 81 →
      ∃ s', solve n { sudoku := g, solved := out, is_solved := false, copies := k } = .ret s' ∧
        SolvePost g out k s' := by
  intro e
  induction e with
  | zero =>
    intro g hg hc he n hn out k hout
    obtain ⟨m, rfl⟩ : ∃ m, n = m + 1 := ⟨n - 1, by omega⟩
    rcases first_empty_spec g with ⟨hfe, hfull⟩ | ⟨c, hc81, _, h0, _⟩
    · exact solve_full m g out k hg hc hout hfe hfull
    · have := empties_pos g c hc81 h0
      omega
  | succ e ih =>
    intro g hg hc he n hn out k hout
    obtain ⟨m, rfl⟩ : ∃ m, n = m + 1 := ⟨n - 1, by omega⟩
    rcases first_empty_spec g with ⟨hfe, hfull⟩ | ⟨c, hc81, hfe, h0, hpre⟩
    · exact solve_full m g out k hg hc hout hfe hfull
    · obtain ⟨m', rfl⟩ : ∃ m', m = m' + 1 := ⟨m - 1, by omega⟩
      have hne : ¬ ((c : Int) = -1) := by omega
      have hloop := solve_loop_search (solve (m' + 1)) g c out k hg.1 hc81 h0
        (fun t ht => solve_latched m' t ht)
        (fun d hd hnp => ih (g.set c d) (isGrid_set hg c d ⟨by omega, hd.2⟩)
          (consistent_set hg.1 hc c d hc81 h0 hnp)
          (by have := empties_set_lt g c d hg.1 hc81 h0 (by omega); omega)
          (m' + 1) (by omega) out k hout)
        [1, 2, 3, 4, 5, 6, 7, 8, 9] (fun d hd => (mem_digits d).1 hd)
      obtain ⟨s', hs', hpost⟩ := hloop
      refine ⟨s', ?_, ?_⟩
      · rw [solve]
        simp only [hfe, hne, if_false]
        exact hs'
      · rcases loopPost_final g c out k hg.1 hc81 h0 hpre _ s' (by decide)
          (fun d hd => by have := (mem_digits d).1 hd; omega) hpost with
          ⟨hs, hall⟩ | ⟨hsud, hsol, hcop, hcg, hlex⟩
        · refine ⟨by rw [hs], Or.inl ⟨?_, by rw [hs], by rw [hs], by rw [hs]⟩⟩
          rintro ⟨f, hf⟩
          exact hall (cell f c) ((mem_digits _).2 (hf.1.range c hc81))
            ⟨f, completion_set_of c hg.1 hc81 hf⟩
        · exact ⟨hsud, Or.inr ⟨hsol, hcop, hcg, fun f hf =>
            hlex f hf ((mem_digits _).2 (hf.1.range c hc81))⟩⟩


theorem solve_loop_mono (call call' : State → Outcome)
    (h : ∀ t o, call t = o → o ≠ .nofuel → call' t = o) (c : Int) :
    ∀ (ds : List Int) (s : State) (o : Outcome), solve_loop call c ds s = o → o ≠ .nofuel →
      solve_loop call' c ds s = o := by
  intro ds
  induction ds with
  | nil => intro s o ho _; simpa [solve_loop] using ho
  | cons d ds ih =>
    intro s o ho hne
    rw [solve_loop] at ho ⊢
    cases hv : valid_attempt s.sudoku d c with
    | none => rw [hv] at ho; exact ho
    | some v =>
      rw [hv] at ho
      simp only at ho ⊢
      by_cases hv0 : v ≠ 0
      · rw [if_pos hv0] at ho ⊢
        cases hw : wr s.sudoku c d with
        | none => rw [hw] at ho; exact ho
        | some g1 =>
          rw [hw] at ho
          simp only at ho ⊢
          cases hc : call { s with sudoku := g1 } with
          | nofuel =>
            rw [hc] at ho
            exact absurd ho.symm hne
          | fault s2 =>
            rw [hc] at ho
            rw [h _ _ hc (by simp)]
            exact ho
          | ret s2 =>
            rw [hc] at ho
            rw [h _ _ hc (by simp)]
            simp only at ho ⊢
            cases hw2 : wr s2.sudoku c 0 with
            | none => rw [hw2] at ho; exact ho
            | some g2 =>
              rw [hw2] at ho
              exact ih _ _ ho hne
      · rw [if_neg hv0] at ho ⊢
        exact ih _ _ ho hne

theorem solve_mono : ∀ (n : Nat) (s : State) (o : Outcome), solve n s = o → o ≠ .nofuel →
    solve (n + 1) s = o := by
  intro n
  induction n with
  | zero => intro s o ho hne; exact absurd ho.symm hne
  | succ n ih =>
    intro s o ho hne
    rw [solve] at ho ⊢
    by_cases hs : s.is_solved = true
    · rw [if_pos hs] at ho ⊢; exact ho
    · rw [if_neg hs] at ho ⊢
      exact solve_loop_mono (solve n) (solve (n + 1)) ih _ _ _ _ ho hne

theorem solve_mono_le (n m : Nat) (hnm : n ≤ m) (s : State) (o : Outcome) (ho : solve n s = o)
    (hne : o ≠ .nofuel) : solve m s = o := by
  induction m with
  | zero =>
    have : n = 0 := by omega
    subst this; exact ho
  | succ m ih =>
    by_cases h : n = m + 1
    · subst h; exact ho
    · exact solve_mono m s o (ih (by omega)) hne


set_option maxRecDepth 100000 in
theorem solvedGrid_valid : ValidGrid solvedGrid := by decide

set_option maxRecDepth 100000 in
theorem easyPuzzle_completion : Completion easyPuzzle solvedGrid := by decide

set_option maxRecDepth 100000 in
theorem easyPuzzle_isGrid : IsGrid easyPuzzle := by decide

theorem easyPuzzle_consistent : Consistent easyPuzzle :=
  completion_consistent easyPuzzle_completion

set_option maxRecDepth 100000 in
theorem easyPuzzle_run : solve 82 (start easyPuzzle blank) =
    .ret { sudoku := easyPuzzle, solved := solvedGrid, is_solved := true, copies := 1 } := by
  decide


set_option maxRecDepth 100000 in
theorem stuckGrid_consistent : Consistent stuckGrid := by decide

theorem stuckGrid_noCompletion : NoCompletion stuckGrid := by
  rintro ⟨f, hf⟩
  have hr := hf.1.range 0 (by omega)
  have h1 := hf.1.distinct 0 1 (by omega) (by omega) (by omega) (by decide)
  have h2 := hf.1.distinct 0 2 (by omega) (by omega) (by omega) (by decide)
  have h3 := hf.1.distinct 0 3 (by omega) (by omega) (by omega) (by decide)
  have h4 := hf.1.distinct 0 4 (by omega) (by omega) (by omega) (by decide)
  have h5 := hf.1.distinct 0 5 (by omega) (by omega) (by omega) (by decide)
  have h6 := hf.1.distinct 0 6 (by omega) (by omega) (by omega) (by decide)
  have h7 := hf.1.distinct 0 7 (by omega) (by omega) (by omega) (by decide)
  have h8 := hf.1.distinct 0 8 (by omega) (by omega) (by omega) (by decide)
  have h9 := hf.1.distinct 0 9 (by omega) (by omega) (by omega) (by decide)
  have e1 : cell f 1 = 1 := hf.2 1 (by omega) (by decide)
  have e2 : cell f 2 = 2 := hf.2 2 (by omega) (by decide)
  have e3 : cell f 3 = 3 := hf.2 3 (by omega) (by decide)
  have e4 : cell f 4 = 4 := hf.2 4 (by omega) (by decide)
  have e5 : cell f 5 = 5 := hf.2 5 (by omega) (by decide)
  have e6 : cell f 6 = 6 := hf.2 6 (by omega) (by decide)
  have e7 : cell f 7 = 7 := hf.2 7 (by omega) (by decide)
  have e8 : cell f 8 = 8 := hf.2 8 (by omega) (by decide)
  have e9 : cell f 9 = 9 := hf.2 9 (by omega) (by decide)
  omega

theorem clashGrid_noCompletion : NoCompletion clashGrid := by
  rintro ⟨f, hf⟩
  have h := hf.1.distinct 79 80 (by omega) (by omega) (by omega) (by decide)
  have e1 : cell f 79 = 7 := hf.2 79 (by omega) (by decide)
  have e2 : cell f 80 = 7 := hf.2 80 (by omega) (by decide)
  exact h (e1.trans e2.symm)

/-- C1. Soundness of `solve`: on an 81-cell grid with values in `0..9` and
consistent givens, started with the latch clear, a run that has copied a grid
into the output buffer leaves there a grid with no empty cell in which every
row, column and box is a permutation of `1..9` and which agrees with the input
on every non-zero cell. -/
theorem solve_sound (g out : List Int) (fuel : Nat) (s : State) (hg : IsGrid g)
    (hc : Consistent g) (hout : out.length = 81)
    (hrun : solve fuel (start g out) = .ret s ∨ solve fuel (start g out) = .fault s)
    (hw : s.copies ≠ 0) :
    (∀ i, i < 81 → cell s.solved i ≠ 0) ∧ ValidGrid s.solved ∧
      ∀ i, i < 81 → cell g i ≠ 0 → cell s.solved i = cell g i := by
  obtain ⟨s', hs', hsud, hpost⟩ :=
    solve_spec 81 g hg hc (empties_le g) (max fuel 82) (by omega) out 0 hout
  have hs : s = s' := by
    rcases hrun with h | h
    · have := solve_mono_le fuel (max fuel 82) (by omega) _ _ h (by simp)
      rw [start, hs'] at this
      exact (Outcome.ret.inj this).symm
    · have := solve_mono_le fuel (max fuel 82) (by omega) _ _ h (by simp)
      rw [start, hs'] at this
      exact absurd this (by simp)
  subst hs
  rcases hpost with ⟨_, _, _, h0⟩ | ⟨_, _, hcomp, _⟩
  · exact absurd h0 hw
  · refine ⟨fun i hi => ?_, hcomp.1, hcomp.2⟩
    have := hcomp.1.range i hi
    omega

theorem solve_sound_witness :
    (∀ i, i < 81 → cell solvedGrid i ≠ 0) ∧ ValidGrid solvedGrid ∧
      ∀ i, i < 81 → cell easyPuzzle i ≠ 0 → cell solvedGrid i = cell easyPuzzle i :=
  solve_sound easyPuzzle blank 82
    { sudoku := easyPuzzle, solved := solvedGrid, is_solved := true, copies := 1 }
    easyPuzzle_isGrid easyPuzzle_consistent rfl (Or.inl easyPuzzle_run) (by decide)

/-- C2. Completeness of `solve`: on an 81-cell grid with values in `0..9` that
has a valid completion, a run started with the latch clear returns (a depth
budget of 82 is enough) with the latch set, having copied a grid into the
output buffer exactly once, and with the working grid restored. -/
theorem solve_complete (g out : List Int) (fuel : Nat) (hg : IsGrid g)
    (hex : ∃ f, Completion g f) (hout : out.length = 81) (hfuel : 82 ≤ fuel) :
    ∃ s, solve fuel (start g out) = .ret s ∧ s.is_solved = true ∧ s.copies = 1 ∧
      s.sudoku = g := by
  obtain ⟨f, hf⟩ := hex
  obtain ⟨s', hs', hsud, hpost⟩ :=
    solve_spec 81 g hg (completion_consistent hf) (empties_le g) fuel (by omega) out 0 hout
  refine ⟨s', hs', ?_⟩
  rcases hpost with ⟨hno, _⟩ | ⟨h1, h2, _⟩
  · exact absurd ⟨f, hf⟩ hno
  · exact ⟨h1, h2, hsud⟩

set_option maxRecDepth 100000 in
theorem solve_complete_witness :
    ∃ s, solve 82 (start blank blank) = .ret s ∧ s.is_solved = true ∧ s.copies = 1 ∧
      s.sudoku = blank :=
  solve_complete blank blank 82 (by decide) ⟨solvedGrid, by decide⟩ rfl (by decide)

set_option maxRecDepth 100000 in
/-- C4, as stated, fails: `clashGrid` is an 81-cell grid with values in `0..9`
whose last row holds `7` in two pre-filled cells, so it has no valid
completion; yet the run of `solve` on it returns with the latch set and the
contradictory grid copied into the output buffer. -/
theorem solve_clash_emitted :
    IsGrid clashGrid ∧ NoCompletion clashGrid ∧
      (79 / 9 = 80 / 9 ∧ cell clashGrid 79 = 7 ∧ cell clashGrid 80 = 7) ∧
      solve 82 (start clashGrid blank) =
        .ret { sudoku := clashGrid, solved := clashGrid, is_solved := true, copies := 1 } ∧
      solve 82 (start clashGrid blank) ≠ .ret (start clashGrid blank) := by
  refine ⟨by decide, clashGrid_noCompletion, by decide, by decide, by decide⟩

/-- C4, amended: on an 81-cell grid with values in `0..9` whose givens are
consistent and which has no valid completion, a run of `solve` started with
the latch clear returns with the memory as it was: nothing is copied into the
output buffer and the latch stays clear. -/
theorem solve_unsolvable (g out : List Int) (fuel : Nat) (hg : IsGrid g) (hc : Consistent g)
    (hno : NoCompletion g) (hout : out.length = 81) (hfuel : 82 ≤ fuel) :
    solve fuel (start g out) = .ret (start g out) := by
  obtain ⟨s', hs', hsud, hpost⟩ :=
    solve_spec 81 g hg hc (empties_le g) fuel (by omega) out 0 hout
  rcases hpost with ⟨_, h1, h2, h3⟩ | ⟨_, _, hcomp, _⟩
  · have : s' = start g out := by
      cases s'; simp_all [start]
    rw [this] at hs'; exact hs'
  · exact absurd ⟨_, hcomp⟩ hno

set_option maxRecDepth 100000 in
theorem solve_unsolvable_witness :
    solve 82 (start stuckGrid blank) = .ret (start stuckGrid blank) :=
  solve_unsolvable stuckGrid blank 82 (by decide) stuckGrid_consistent stuckGrid_noCompletion
    rfl (by decide)


theorem rotate_cell_nat : ∀ i < 81, rotate_cell ((i : Nat) : Int) = ((rot1 i : Nat) : Int) := by
  decide

theorem rot1_lt (i : Nat) (hi : i < 81) : rot1 i < 81 := by
  unfold rot1; omega

theorem rot1_iter_lt (t : Nat) : ∀ i, i < 81 → rot1^[t] i < 81 := by
  induction t with
  | zero => intro i hi; exact hi
  | succ t ih => intro i hi; rw [Function.iterate_succ_apply]; exact ih _ (rot1_lt i hi)

theorem rotate_cell_times_nat (t : Nat) : ∀ i, i < 81 →
    rotate_cell_times (t : Int) ((i : Nat) : Int) = ((rot1^[t] i : Nat) : Int) := by
  unfold rotate_cell_times
  rw [Int.toNat_ofNat]
  induction t with
  | zero => intro i _; rfl
  | succ t ih =>
    intro i hi
    rw [Function.iterate_succ_apply, Function.iterate_succ_apply, rotate_cell_nat i hi]
    exact ih _ (rot1_lt i hi)

theorem rot1_four : ∀ i < 81, rot1^[4] i = i := by decide

theorem rot1_inj (i j : Nat) (hi : i < 81) (hj : j < 81) (h : rot1 i = rot1 j) : i = j := by
  have h1 := rot1_four i hi
  have h2 := rot1_four j hj
  rw [show (4 : Nat) = 3 + 1 from rfl, Function.iterate_succ_apply] at h1 h2
  rw [← h1, ← h2, h]

theorem rot1_iter_inj (t : Nat) : ∀ i j, i < 81 → j < 81 → rot1^[t] i = rot1^[t] j → i = j := by
  induction t with
  | zero => intro i j _ _ h; exact h
  | succ t ih =>
    intro i j hi hj h
    rw [Function.iterate_succ_apply, Function.iterate_succ_apply] at h
    exact rot1_inj i j hi hj (ih _ _ (rot1_lt i hi) (rot1_lt j hj) h)

theorem rot1_peer (i j : Nat) (hi : i < 81) (hj : j < 81) (h : Peer i j) :
    Peer (rot1 i) (rot1 j) := by
  have a1 : ∀ n, n < 81 → rot1 n / 9 = n % 9 := fun n hn => by unfold rot1; omega
  have a2 : ∀ n, n < 81 → rot1 n % 9 = 8 - n / 9 := fun n hn => by unfold rot1; omega
  have a3 : ∀ n, n < 81 → rot1 n / 27 = n % 9 / 3 := fun n hn => by unfold rot1; omega
  unfold Peer at *
  rw [a1 i hi, a1 j hj, a2 i hi, a2 j hj, a3 i hi, a3 j hj]
  omega

theorem rot1_iter_peer (t : Nat) : ∀ i j, i < 81 → j < 81 → Peer i j →
    Peer (rot1^[t] i) (rot1^[t] j) := by
  induction t with
  | zero => intro i j _ _ h; exact h
  | succ t ih =>
    intro i j hi hj h
    rw [Function.iterate_succ_apply, Function.iterate_succ_apply]
    exact ih _ _ (rot1_lt i hi) (rot1_lt j hj) (rot1_peer i j hi hj h)

theorem stores_congr (p q : Nat → Nat) (v : Nat → Int) (b : List Int) (n : Nat)
    (h : ∀ i < n, p i = q i) : stores p v n b = stores q v n b := by
  induction n with
  | zero => rfl
  | succ n ih =>
    rw [stores_succ, stores_succ, ih (fun i hi => h i (by omega)), h n (by omega)]

theorem rotate_times_eq_stores (g b : List Int) (times : Int) (h : 0 ≤ times) :
    rotate_times g times b = stores (rot1^[(times.tmod 4).toNat]) (cell g) 81 b := by
  have hnn : 0 ≤ times.tmod 4 := Int.tmod_nonneg 4 h
  have hcast : times.tmod 4 = (((times.tmod 4).toNat : Nat) : Int) := (Int.toNat_of_nonneg hnn).symm
  show stores (fun i => (rotate_cell_times (times.tmod 4) (i : Int)).toNat) (cell g) 81 b = _
  apply stores_congr
  intro i hi
  rw [hcast, rotate_cell_times_nat _ i hi, Int.toNat_ofNat, Int.toNat_ofNat]

theorem rotate_times_length (g b : List Int) (times : Int) (h : 0 ≤ times) :
    (rotate_times g times b).length = b.length := by
  rw [rotate_times_eq_stores g b times h, stores_length]

theorem rotate_times_cell (g b : List Int) (times : Int) (h : 0 ≤ times) (hb : b.length = 81)
    (i : Nat) (hi : i < 81) :
    cell (rotate_times g times b) (rot1^[(times.tmod 4).toNat] i) = cell g i := by
  rw [rotate_times_eq_stores g b times h]
  apply cell_of_getElem_some
  exact stores_get _ (cell g) b 81 (fun a ha c hc => rot1_iter_inj _ a c ha hc)
    (fun a ha => by rw [hb]; exact rot1_iter_lt _ a ha) i hi

theorem rot1_back (k : Int) (hk : 0 ≤ k ∧ k ≤ 3) (m : Nat) (hm : m < 81) :
    rot1^[((4 - k).tmod 4).toNat] (rot1^[(k.tmod 4).toNat] m) = m := by
  obtain rfl | rfl | rfl | rfl : k = 0 ∨ k = 1 ∨ k = 2 ∨ k = 3 := by omega
  · rfl
  · exact rot1_four m hm
  · exact rot1_four m hm
  · exact rot1_four m hm

theorem rot1_forth (k : Int) (hk : 0 ≤ k ∧ k ≤ 3) (m : Nat) (hm : m < 81) :
    rot1^[(k.tmod 4).toNat] (rot1^[((4 - k).tmod 4).toNat] m) = m := by
  obtain rfl | rfl | rfl | rfl : k = 0 ∨ k = 1 ∨ k = 2 ∨ k = 3 := by omega
  · rfl
  · exact rot1_four m hm
  · exact rot1_four m hm
  · exact rot1_four m hm

theorem rotate_round_trip (g f1 f2 : List Int) (k : Int) (hk : 0 ≤ k ∧ k ≤ 3)
    (hg : g.length = 81) (h1 : f1.length = 81) (h2 : f2.length = 81) :
    rotate_times (rotate_times g k f1) (4 - k) f2 = g := by
  apply grid_ext (by rw [rotate_times_length _ _ _ (by omega), h2]) hg
  intro m hm
  have e1 := rotate_times_cell g f1 k hk.1 h1 m hm
  have e2 := rotate_times_cell (rotate_times g k f1) f2 (4 - k) (by omega) h2
    (rot1^[(k.tmod 4).toNat] m) (rot1_iter_lt _ m hm)
  rw [rot1_back k hk m hm] at e2
  rw [e2, e1]


theorem tmod4_toNat_lt (times : Int) (h : 0 ≤ times) : (times.tmod 4).toNat < 4 := by
  have h1 : times.tmod 4 < 4 := Int.tmod_lt_of_pos times (by norm_num)
  have h2 : 0 ≤ times.tmod 4 := Int.tmod_nonneg 4 h
  omega

theorem rot1_undo (t : Nat) (ht : t < 4) (m : Nat) (hm : m < 81) :
    rot1^[t] (rot1^[4 - t] m) = m := by
  rw [← Function.iterate_add_apply, show t + (4 - t) = 4 by omega]
  exact rot1_four m hm

theorem rotate_times_cell_inv (x b : List Int) (times : Int) (h : 0 ≤ times)
    (hb : b.length = 81) (m : Nat) (hm : m < 81) :
    cell (rotate_times x times b) m = cell x (rot1^[4 - (times.tmod 4).toNat] m) := by
  have := rotate_times_cell x b times h hb (rot1^[4 - (times.tmod 4).toNat] m)
    (rot1_iter_lt _ m hm)
  rw [rot1_undo _ (tmod4_toNat_lt times h) m hm] at this
  exact this

theorem rotate_times_buffer (x b1 b2 : List Int) (times : Int) (h : 0 ≤ times)
    (h1 : b1.length = 81) (h2 : b2.length = 81) :
    rotate_times x times b1 = rotate_times x times b2 := by
  apply grid_ext (by rw [rotate_times_length _ _ _ h, h1]) (by rw [rotate_times_length _ _ _ h, h2])
  intro m hm
  rw [rotate_times_cell_inv x b1 times h h1 m hm, rotate_times_cell_inv x b2 times h h2 m hm]

theorem rotate_times_zero (x b : List Int) (hx : x.length = 81) (hb : b.length = 81) :
    rotate_times x 0 b = x := by
  apply grid_ext (by rw [rotate_times_length _ _ _ (le_refl _), hb]) hx
  intro m hm
  exact rotate_times_cell x b 0 (le_refl _) hb m hm

theorem rotate_times_four (x b : List Int) (hx : x.length = 81) (hb : b.length = 81) :
    rotate_times x 4 b = x := by
  apply grid_ext (by rw [rotate_times_length _ _ _ (by norm_num), hb]) hx
  intro m hm
  exact rotate_times_cell x b 4 (by norm_num) hb m hm

theorem rotate_isGrid (a b : List Int) (times : Int) (h : 0 ≤ times) (hb : b.length = 81)
    (ha : IsGrid a) : IsGrid (rotate_times a times b) := by
  refine ⟨by rw [rotate_times_length _ _ _ h, hb], fun m hm => ?_⟩
  rw [rotate_times_cell_inv a b times h hb m hm]
  exact ha.2 _ (rot1_iter_lt _ m hm)

theorem rotate_validGrid (f b : List Int) (times : Int) (h : 0 ≤ times) (hb : b.length = 81)
    (hf : ValidGrid f) : ValidGrid (rotate_times f times b) := by
  apply validGrid_of_distinct (by rw [rotate_times_length _ _ _ h, hb])
  · intro m hm
    rw [rotate_times_cell_inv f b times h hb m hm]
    exact hf.range _ (rot1_iter_lt _ m hm)
  · intro m hm n hn hmn hp
    rw [rotate_times_cell_inv f b times h hb m hm, rotate_times_cell_inv f b times h hb n hn]
    exact hf.distinct _ _ (rot1_iter_lt _ m hm) (rot1_iter_lt _ n hn)
      (fun e => hmn (rot1_iter_inj _ m n hm hn e)) (rot1_iter_peer _ m n hm hn hp)

theorem rotate_completion (a f b1 b2 : List Int) (times : Int) (h : 0 ≤ times)
    (h1 : b1.length = 81) (h2 : b2.length = 81) (hc : Completion a f) :
    Completion (rotate_times a times b1) (rotate_times f times b2) := by
  refine ⟨rotate_validGrid f b2 times h h2 hc.1, fun m hm => ?_⟩
  rw [rotate_times_cell_inv a b1 times h h1 m hm, rotate_times_cell_inv f b2 times h h2 m hm]
  exact hc.2 _ (rot1_iter_lt _ m hm)

/-- C5. Rotation round trip: for an 81-cell grid `g` and `k` in `{0,1,2,3}`,
rotating `k` times and then `4 - k` times gives `g` back cell for cell,
whatever the two target buffers held before; a count of `4` (the case `k = 0`)
is reduced modulo 4 and acts as `0`. -/
theorem rotate_times_round_trip (g f1 f2 : List Int) (k : Int) (hk : 0 ≤ k ∧ k ≤ 3)
    (hg : g.length = 81) (h1 : f1.length = 81) (h2 : f2.length = 81) :
    rotate_times (rotate_times g k f1) (4 - k) f2 = g ∧
      rotate_times g 4 f2 = rotate_times g 0 f2 :=
  ⟨rotate_round_trip g f1 f2 k hk hg h1 h2,
    by rw [rotate_times_four g f2 hg h2, rotate_times_zero g f2 hg h2]⟩

theorem rotate_times_round_trip_witness :
    rotate_times (rotate_times easyPuzzle 3 blank) (4 - 3) solvedGrid = easyPuzzle ∧
      rotate_times easyPuzzle 4 solvedGrid = rotate_times easyPuzzle 0 solvedGrid :=
  rotate_times_round_trip easyPuzzle blank solvedGrid 3 (by decide) rfl rfl rfl


theorem copy_array_length (a b : List Int) (n : Nat) : (copy_array a b n).length = b.length :=
  stores_length id (cell a) n b

theorem best_fold (G : Int → List Int) (D : Int → Nat) (R0 : List Int) (hR0 : R0 = G 0)
    (hlen : ∀ j, (G j).length = 81) :
    ∀ r, r = [1, 2, 3].foldl
        (fun (st : Int × Nat × List Int) (i : Int) =>
          if D i < st.2.1 then (i, D i, copy_array (G i) st.2.2 81) else st) (0, D 0, R0) →
      r.2.2 = G r.1 ∧ 0 ≤ r.1 ∧ r.1 ≤ 3 ∧
        ∀ j, 0 ≤ j → j ≤ 3 → D r.1 ≤ D j ∧ (j < r.1 → D r.1 < D j) := by
  intro r hr
  subst hR0
  simp only [List.foldl] at hr
  split_ifs at hr <;> subst hr <;>
    simp only [copy_array_eq _ _ (hlen _) (hlen _), true_and] <;>
    refine ⟨by norm_num, by norm_num, fun j h0 h3 => ?_⟩ <;>
    (obtain rfl | rfl | rfl | rfl : j = 0 ∨ j = 1 ∨ j = 2 ∨ j = 3 := by omega) <;>
    simp_all <;> omega


theorem rotate_times_length_any (g b : List Int) (times : Int) :
    (rotate_times g times b).length = b.length :=
  stores_length _ (cell g) 81 b

theorem best_rotation_spec (g rotated temp : List Int) (w : List Nat) (hg : g.length = 81)
    (hr : rotated.length = 81) (ht : temp.length = 81) :
    (best_rotation g rotated w temp).2 = rotate_times g (best_rotation g rotated w temp).1 temp ∧
      0 ≤ (best_rotation g rotated w temp).1 ∧ (best_rotation g rotated w temp).1 ≤ 3 ∧
      ∀ j, 0 ≤ j → j ≤ 3 →
        score g w temp (best_rotation g rotated w temp).1 ≤ score g w temp j ∧
          (j < (best_rotation g rotated w temp).1 →
            score g w temp (best_rotation g rotated w temp).1 < score g w temp j) := by
  have h0 : rotate_times g 0 temp = g := rotate_times_zero g temp hg ht
  have hD0 : difficulty g (fib_weights w) = score g w temp 0 := by
    unfold score; rw [h0]
  have hR0 : copy_array g rotated 81 = rotate_times g 0 temp := by
    rw [h0, copy_array_eq g rotated hg hr]
  have key := best_fold (fun j => rotate_times g j temp) (score g w temp)
    (copy_array g rotated 81) hR0
    (fun j => by rw [rotate_times_length_any, ht])
    ([1, 2, 3].foldl (best_rotation_step g (fib_weights w) temp)
      (0, difficulty g (fib_weights w), copy_array g rotated 81))
    (by rw [hD0]; rfl)
  exact key

theorem score_buffer (g : List Int) (w : List Nat) (b1 b2 : List Int) (h1 : b1.length = 81)
    (h2 : b2.length = 81) (j : Int) (hj : 0 ≤ j) : score g w b1 j = score g w b2 j := by
  unfold score
  rw [rotate_times_buffer g b1 b2 j hj h1 h2]

/-- C8. `best_rotation` selects the minimising rotation, ties going to the
lowest index: for an 81-cell grid `g` the returned count `k` is in
`{0,1,2,3}`, the score of the `k`-rotation is at most the score of every
`j`-rotation and strictly below it for every `j < k`, and the grid written to
`rotated` is the `k`-rotation of `g`; in particular when the 2-rotation has a
strictly smaller score than the three others, `2` and the 2-rotated grid are
returned.  The buffer `b` the rotations are written into does not matter. -/
theorem best_rotation_minimal (g rotated temp b : List Int) (w : List Nat) (hg : g.length = 81)
    (hr : rotated.length = 81) (ht : temp.length = 81) (hb : b.length = 81) :
    (0 ≤ (best_rotation g rotated w temp).1 ∧ (best_rotation g rotated w temp).1 ≤ 3) ∧
      (∀ j, 0 ≤ j → j ≤ 3 →
        score g w b (best_rotation g rotated w temp).1 ≤ score g w b j) ∧
      (∀ j, 0 ≤ j → j < (best_rotation g rotated w temp).1 →
        score g w b (best_rotation g rotated w temp).1 < score g w b j) ∧
      (best_rotation g rotated w temp).2 =
        rotate_times g (best_rotation g rotated w temp).1 b ∧
      ((∀ j, 0 ≤ j → j ≤ 3 → j ≠ 2 → score g w b 2 < score g w b j) →
        (best_rotation g rotated w temp).1 = 2 ∧
          (best_rotation g rotated w temp).2 = rotate_times g 2 b) := by
  obtain ⟨hgrid, hk0, hk3, hmin⟩ := best_rotation_spec g rotated temp w hg hr ht
  have hsc : ∀ j, 0 ≤ j → score g w b j = score g w temp j :=
    fun j hj => score_buffer g w b temp hb ht j hj
  have hgrid' : (best_rotation g rotated w temp).2 =
      rotate_times g (best_rotation g rotated w temp).1 b := by
    rw [hgrid]; exact rotate_times_buffer g temp b _ hk0 ht hb
  refine ⟨⟨hk0, hk3⟩, fun j h0 h3 => ?_, fun j h0 hlt => ?_, hgrid', fun hstrict => ?_⟩
  · rw [hsc _ hk0, hsc j h0]; exact (hmin j h0 h3).1
  · rw [hsc _ hk0, hsc j h0]; exact (hmin j h0 (by omega)).2 hlt
  · have hk2 : (best_rotation g rotated w temp).1 = 2 := by
      by_contra hne
      have h1 := hstrict _ hk0 hk3 hne
      have h2 := (hmin 2 (by norm_num) (by norm_num)).1
      rw [hsc 2 (by norm_num), hsc _ hk0] at h1
      omega
    exact ⟨hk2, hk2 ▸ hgrid'⟩


set_option maxRecDepth 100000 in
theorem cornerPuzzle_scores : ∀ j : Int, 0 ≤ j → j ≤ 3 → j ≠ 2 →
    score cornerPuzzle (List.replicate 81 0) blank 2 <
      score cornerPuzzle (List.replicate 81 0) blank j := by
  intro j h0 h3 hne
  obtain rfl | rfl | rfl : j = 0 ∨ j = 1 ∨ j = 3 := by omega
  all_goals decide

theorem best_rotation_minimal_witness :
    (cornerPuzzle.length = 81 ∧ blank.length = 81) ∧
      (best_rotation cornerPuzzle blank (List.replicate 81 0) blank).1 = 2 ∧
      (best_rotation cornerPuzzle blank (List.replicate 81 0) blank).2 =
        rotate_times cornerPuzzle 2 blank :=
  ⟨⟨rfl, rfl⟩,
    (best_rotation_minimal cornerPuzzle blank blank blank (List.replicate 81 0)
      rfl rfl rfl rfl).2.2.2.2 cornerPuzzle_scores⟩

/-- C3. The `solve` branch of `main` on a solvable 81-cell grid `g` with values
in `0..9`: choosing the rotation with `best_rotation`, solving the rotated
grid and rotating the solution by `4 - rotations` ends with a grid in which
every row, column and box is a permutation of `1..9` and which agrees with `g`
on every non-zero cell of `g`, that is a solution of the puzzle in its
original orientation. -/
theorem main_solve_correct (g solved rotated temp : List Int) (w : List Nat) (fuel : Nat)
    (hg : IsGrid g) (hex : ∃ f, Completion g f) (hs : solved.length = 81)
    (hr : rotated.length = 81) (ht : temp.length = 81) (hfuel : 82 ≤ fuel) :
    ∃ f, main_solve fuel g solved rotated w temp = some f ∧ ValidGrid f ∧
      ∀ i, i < 81 → cell g i ≠ 0 → cell f i = cell g i := by
  obtain ⟨f0, hf0⟩ := hex
  obtain ⟨hgrid, hk0, hk3, _⟩ := best_rotation_spec g rotated temp w hg.1 hr ht
  generalize hbr : best_rotation g rotated w temp = br at hgrid hk0 hk3
  have hrlen : br.2.length = 81 := by rw [hgrid, rotate_times_length_any, ht]
  have hrgrid : IsGrid br.2 := by rw [hgrid]; exact rotate_isGrid g temp br.1 hk0 ht hg
  have hrcomp : Completion br.2 (rotate_times f0 br.1 temp) := by
    rw [hgrid]; exact rotate_completion g f0 temp temp br.1 hk0 ht ht hf0
  obtain ⟨s, hrun, hsud, hpost⟩ := solve_spec 81 br.2 hrgrid (completion_consistent hrcomp)
    (empties_le _) fuel (by omega) solved 0 hs
  rcases hpost with ⟨hno, _⟩ | ⟨_, _, hcomp, _⟩
  · exact absurd ⟨_, hrcomp⟩ hno
  · refine ⟨rotate_times s.solved (4 - br.1) s.sudoku, ?_, ?_⟩
    · unfold main_solve
      simp only [hbr, copy_array_eq br.2 g hrlen hg.1, hrun]
    · have hback := rotate_completion br.2 s.solved g s.sudoku (4 - br.1) (by omega) hg.1
        (by rw [hsud, hrlen]) hcomp
      have hrt : rotate_times br.2 (4 - br.1) g = g := by
        rw [hgrid]; exact rotate_round_trip g temp g br.1 ⟨hk0, hk3⟩ hg.1 ht hg.1
      rw [hrt] at hback
      exact hback

set_option maxRecDepth 100000 in
theorem main_solve_correct_witness :
    (IsGrid easyPuzzle ∧ ∃ f, Completion easyPuzzle f) ∧
      ∃ f, main_solve 82 easyPuzzle blank blank (List.replicate 81 0) blank = some f ∧
        ValidGrid f ∧ ∀ i, i < 81 → cell easyPuzzle i ≠ 0 → cell f i = cell easyPuzzle i :=
  ⟨⟨easyPuzzle_isGrid, solvedGrid, easyPuzzle_completion⟩,
    main_solve_correct easyPuzzle blank blank blank (List.replicate 81 0) 82 easyPuzzle_isGrid
      ⟨solvedGrid, easyPuzzle_completion⟩ rfl rfl rfl (by decide)⟩


theorem fib_weights_loop_buffer : ∀ (n : Nat) (w w' : List Nat) (a b : Nat),
    w.length = w'.length → (∀ j, n ≤ j → w[j]? = w'[j]?) →
      fib_weights_loop n w a b = fib_weights_loop n w' a b := by
  intro n
  induction n with
  | zero =>
    intro w w' a b _ h
    exact List.ext_getElem? (fun j => h j (Nat.zero_le _))
  | succ n ih =>
    intro w w' a b hl h
    unfold fib_weights_loop
    apply ih
    · rw [List.length_set, List.length_set, hl]
    · intro j hj
      rw [List.getElem?_set, List.getElem?_set, hl]
      by_cases hnj : n = j
      · simp [hnj]
      · simp only [hnj, if_false]
        exact h j (by omega)

theorem fib_weights_eq (w : List Nat) (h : w.length = 81) : fib_weights w = weightTable := by
  unfold weightTable fib_weights
  apply fib_weights_loop_buffer
  · rw [h]; rfl
  · intro j hj
    rw [List.getElem?_eq_none (by omega), List.getElem?_eq_none (by simp; omega)]

set_option maxRecDepth 100000 in
theorem weightTable_facts :
    weightTable.length = 81 ∧ weightTable.getD 80 0 = 1 ∧ weightTable.getD 79 0 = 2 ∧
      (∀ i, i ≤ 78 → weightTable.getD i 0 = weightTable.getD (i + 1) 0 + weightTable.getD (i + 2) 0) ∧
      (∀ i, i ≤ 79 → weightTable.getD (i + 1) 0 < weightTable.getD i 0) ∧
      (∀ i, i ≤ 80 → weightTable.getD i 0 = fibo (82 - i)) := by
  decide


theorem emptyWeightUpTo_succ (g : List Int) (w : List Nat) (n : Nat) :
    emptyWeightUpTo g w (n + 1) =
      emptyWeightUpTo g w n + (if cell g n = 0 then w.getD n 0 else 0) := rfl

theorem weightUpTo_succ (w : List Nat) (n : Nat) :
    weightUpTo w (n + 1) = weightUpTo w n + w.getD n 0 := rfl

theorem emptyWeightUpTo_le (g : List Int) (w : List Nat) :
    ∀ n, emptyWeightUpTo g w n ≤ weightUpTo w n := by
  intro n
  induction n with
  | zero => exact le_refl _
  | succ n ih =>
    rw [emptyWeightUpTo_succ, weightUpTo_succ]
    by_cases h : cell g n = 0
    · rw [if_pos h]; omega
    · rw [if_neg h]; omega

theorem weightUpTo_mono (w : List Nat) (n m : Nat) (h : n ≤ m) :
    weightUpTo w n ≤ weightUpTo w m := by
  induction m with
  | zero =>
    have : n = 0 := by omega
    subst this; exact le_refl _
  | succ m ih =>
    by_cases hn : n = m + 1
    · subst hn; exact le_refl _
    · have := ih (by omega)
      rw [weightUpTo_succ]
      omega

theorem difficulty_loop (g : List Int) (w : List Nat) (hw : weightUpTo w 81 < 2 ^ 64) :
    ∀ n, n ≤ 81 →
      (List.range n).foldl
        (fun diff (i : Nat) =>
          if g.getD i 0 = 0 then (diff + w.getD i 0) % 2 ^ 64 else diff) 0 =
        emptyWeightUpTo g w n := by
  intro n
  induction n with
  | zero => intro _; rfl
  | succ n ih =>
    intro hn
    rw [List.range_succ, List.foldl_append, ih (by omega)]
    simp only [List.foldl_cons, List.foldl_nil]
    have h1 := emptyWeightUpTo_le g w (n + 1)
    have h2 := weightUpTo_mono w (n + 1) 81 hn
    rw [emptyWeightUpTo_succ] at h1 ⊢
    by_cases h : cell g n = 0
    · have h' : g.getD n 0 = 0 := h
      rw [if_pos h']
      rw [if_pos h] at h1 ⊢
      exact Nat.mod_eq_of_lt (by omega)
    · have h' : ¬ g.getD n 0 = 0 := h
      rw [if_neg h', if_neg h]
      rfl

theorem emptyWeightUpTo_eq_sum (g : List Int) (w : List Nat) :
    ∀ n, emptyWeightUpTo g w n =
      ∑ i in (Finset.range n).filter (fun i => cell g i = 0), w.getD i 0 := by
  intro n
  induction n with
  | zero => rfl
  | succ n ih =>
    rw [emptyWeightUpTo_succ, ih, Finset.sum_filter, Finset.sum_filter, Finset.sum_range_succ]

set_option maxRecDepth 100000 in
theorem weightTable_total : weightUpTo weightTable 81 = fibo 84 - 2 ∧
    weightUpTo weightTable 81 < 2 ^ 64 ∧ ∀ i, i ≤ 80 → 0 < weightTable.getD i 0 := by
  decide

theorem difficulty_eq (g : List Int) (w : List Nat) (hw : w.length = 81) :
    difficulty g (fib_weights w) = emptyWeight g (fib_weights w) := by
  rw [fib_weights_eq w hw]
  unfold difficulty emptyWeight
  rw [difficulty_loop g weightTable weightTable_total.2.1 81 (le_refl _),
    emptyWeightUpTo_eq_sum]

/-- C9. The weight table: over any previous contents of the 81-entry buffer,
`fib_weights` in unsigned 64-bit arithmetic stores `w[80] = 1`, `w[79] = 2`,
`w[i] = w[i+1] + w[i+2]` for every `i` in `[0,78]`, and `w[i] > w[i+1]` for
every `i` in `[0,79]`; hence `w[0]` is strictly larger than every other
weight. -/
theorem fib_weights_table (w : List Nat) (hw : w.length = 81) :
    (fib_weights w).length = 81 ∧ (fib_weights w).getD 80 0 = 1 ∧
      (fib_weights w).getD 79 0 = 2 ∧
      (∀ i, i ≤ 78 →
        (fib_weights w).getD i 0 = (fib_weights w).getD (i + 1) 0 + (fib_weights w).getD (i + 2) 0) ∧
      (∀ i, i ≤ 79 → (fib_weights w).getD (i + 1) 0 < (fib_weights w).getD i 0) ∧
      (∀ i, 1 ≤ i → i ≤ 80 → (fib_weights w).getD i 0 < (fib_weights w).getD 0 0) := by
  rw [fib_weights_eq w hw]
  obtain ⟨h1, h2, h3, h4, h5, _⟩ := weightTable_facts
  refine ⟨h1, h2, h3, h4, h5, ?_⟩
  intro i
  induction i with
  | zero => intro h; omega
  | succ i ih =>
    intro _ hi
    have hstep := h5 i (by omega)
    by_cases h0 : i = 0
    · subst h0; exact hstep
    · exact lt_trans hstep (ih (by omega) (by omega))

theorem fib_weights_table_witness :
    (List.replicate 81 (7 : Nat)).length = 81 ∧
      (fib_weights (List.replicate 81 7)).length = 81 ∧
      (fib_weights (List.replicate 81 7)).getD 80 0 = 1 ∧
      (fib_weights (List.replicate 81 7)).getD 79 0 = 2 :=
  ⟨rfl, (fib_weights_table (List.replicate 81 7) rfl).1,
    (fib_weights_table (List.replicate 81 7) rfl).2.1,
    (fib_weights_table (List.replicate 81 7) rfl).2.2.1⟩

/-- C10. With the weight table `w` built by `fib_weights`, `difficulty(grid, w)`
is the sum of `w[i]` over exactly the indices `i` in `[0,80]` with
`grid[i] == 0`; it is `0` for a grid with no empty cell and non-zero for a grid
with at least one empty cell. -/
theorem difficulty_sum (g : List Int) (w : List Nat) (hw : w.length = 81) :
    difficulty g (fib_weights w) =
        ∑ i in (Finset.range 81).filter (fun i => cell g i = 0), (fib_weights w).getD i 0 ∧
      ((∀ i, i < 81 → cell g i ≠ 0) → difficulty g (fib_weights w) = 0) ∧
      ((∃ i, i < 81 ∧ cell g i = 0) → difficulty g (fib_weights w) ≠ 0) := by
  have heq := difficulty_eq g w hw
  unfold emptyWeight at heq
  refine ⟨heq, fun hfull => ?_, fun ⟨i, hi, h0⟩ => ?_⟩
  · rw [heq]
    apply Finset.sum_eq_zero
    intro i hi
    have := Finset.mem_filter.1 hi
    exact absurd this.2 (hfull i (Finset.mem_range.1 this.1))
  · rw [heq, fib_weights_eq w hw]
    have hpos := weightTable_total.2.2 i (by omega)
    have hmem : i ∈ (Finset.range 81).filter (fun i => cell g i = 0) :=
      Finset.mem_filter.2 ⟨Finset.mem_range.2 hi, h0⟩
    have hle := Finset.single_le_sum (f := fun i => weightTable.getD i 0)
      (fun j _ => Nat.zero_le _) hmem
    simp only at hle
    omega

theorem difficulty_sum_witness :
    (List.replicate 81 (0 : Nat)).length = 81 ∧
      difficulty solvedGrid (fib_weights (List.replicate 81 0)) = 0 ∧
      difficulty easyPuzzle (fib_weights (List.replicate 81 0)) ≠ 0 :=
  ⟨rfl, (difficulty_sum solvedGrid (List.replicate 81 0) rfl).2.1 (by decide),
    (difficulty_sum easyPuzzle (List.replicate 81 0) rfl).2.2 ⟨0, by decide, by decide⟩⟩


/-- C6. For a cell index `i` in `[0,80]` with `r = i / 9` and `c = i % 9`,
`neighbours(i)` fills exactly 27 entries, all in `[0,80]`: entries `0..8` are
`r*9 + 0 .. r*9 + 8`, entries `9..17` are `c, c + 9, .., c + 72`, entries
`18..26` are the cells of the box starting at `(3*(r/3), 3*(c/3))` in row-major
order; so the entries are exactly the cells sharing a row, a column or a box
with `i`, among them `i` itself. -/
theorem neighbours_layout (i : Nat) (hi : i < 81) :
    (neighbours (i : Int)).length = 27 ∧
      (∀ x ∈ neighbours (i : Int), 0 ≤ x ∧ x ≤ 80) ∧
      (∀ t, t < 9 → (neighbours (i : Int))[t]? = some (((i / 9 * 9 + t : Nat)) : Int)) ∧
      (∀ t, t < 9 → (neighbours (i : Int))[9 + t]? = some (((i % 9 + 9 * t : Nat)) : Int)) ∧
      (∀ j, j < 3 → ∀ k, k < 3 → (neighbours (i : Int))[18 + 3 * j + k]? =
        some ((((3 * (i / 9 / 3) + j) * 9 + (3 * (i % 9 / 3) + k) : Nat)) : Int)) ∧
      (∀ x : Int, x ∈ neighbours (i : Int) ↔ ∃ n : Nat, n < 81 ∧ x = (n : Int) ∧ Peer i n) ∧
      (i : Int) ∈ neighbours (i : Int) := by
  obtain ⟨h1, h2, h3, h4⟩ := neighbours_entries i hi
  refine ⟨h1, fun x hx => ?_, h2, h3, h4, mem_neighbours_iff i hi, ?_⟩
  · obtain ⟨n, hn, rfl, _⟩ := (mem_neighbours_iff i hi x).1 hx
    omega
  · exact (mem_neighbours_iff i hi _).2 ⟨i, hi, rfl, peer_refl i⟩

theorem neighbours_layout_witness :
    (40 : Nat) < 81 ∧ (neighbours ((40 : Nat) : Int)).length = 27 ∧
      ((40 : Nat) : Int) ∈ neighbours ((40 : Nat) : Int) :=
  ⟨by decide, (neighbours_layout 40 (by decide)).1, (neighbours_layout 40 (by decide)).2.2.2.2.2.2⟩

/-- C7. For an 81-cell grid, a cell index `c` in `[0,80]` and any integer `a`,
`valid_attempt(grid, a, c)` returns `0` exactly when some cell in the row,
column or box of `c` holds the value `a`, and returns `1` exactly when none
does; it reads cells of the grid only and hands back nothing but this
result. -/
theorem valid_attempt_iff (g : List Int) (a : Int) (c : Nat) (hg : g.length = 81)
    (hc : c < 81) :
    (valid_attempt g a (c : Int) = some 0 ↔ ∃ n, n < 81 ∧ Peer c n ∧ cell g n = a) ∧
      (valid_attempt g a (c : Int) = some 1 ↔ ¬ ∃ n, n < 81 ∧ Peer c n ∧ cell g n = a) := by
  rcases valid_attempt_cases g a c hg hc with ⟨hex, hv⟩ | ⟨hnex, hv⟩
  · rw [hv]
    exact ⟨⟨fun _ => hex, fun _ => rfl⟩, ⟨fun h => by simp at h, fun h => absurd hex h⟩⟩
  · rw [hv]
    exact ⟨⟨fun h => by simp at h, fun h => absurd h hnex⟩, ⟨fun _ => hnex, fun _ => rfl⟩⟩

theorem valid_attempt_iff_witness :
    (easyPuzzle.length = 81 ∧ (0 : Nat) < 81) ∧
      (valid_attempt easyPuzzle 3 ((0 : Nat) : Int) = some 0 ↔
        ∃ n, n < 81 ∧ Peer 0 n ∧ cell easyPuzzle n = 3) ∧
      (valid_attempt easyPuzzle 5 ((0 : Nat) : Int) = some 1 ↔
        ¬ ∃ n, n < 81 ∧ Peer 0 n ∧ cell easyPuzzle n = 5) :=
  ⟨⟨rfl, by decide⟩, (valid_attempt_iff easyPuzzle 3 0 rfl (by decide)).1,
    (valid_attempt_iff easyPuzzle 5 0 rfl (by decide)).2⟩


theorem wr_neg (g : List Int) (i v : Int) (h : i < 0) : wr g i v = none := by
  have : ¬ (0 ≤ i) := by omega
  simp [wr, this]

theorem solve_loop_neg_one (call : State → Outcome) :
    ∀ (ds : List Int) (t : State), solve_loop call (-1) ds t ≠ .nofuel ∧
      ∀ s', solve_loop call (-1) ds t = .ret s' → s' = t := by
  intro ds
  induction ds with
  | nil =>
    intro t
    rw [solve_loop]
    exact ⟨by simp, fun s' h => (Outcome.ret.inj h).symm⟩
  | cons d ds ih =>
    intro t
    rw [solve_loop]
    cases hv : valid_attempt t.sudoku d (-1) with
    | none => simp
    | some v =>
      simp only
      by_cases hv0 : v ≠ 0
      · rw [if_pos hv0, wr_neg _ _ _ (by norm_num)]
        simp
      · rw [if_neg hv0]
        exact ih t

theorem solve_loop_general (call : State → Outcome) (g : List Int) (k : Nat)
    (hl : g.length = 81) (hk : k < 81) (h0 : cell g k = 0)
    (hcall : ∀ d : Int, d ≠ 0 → ∀ t : State, t.sudoku = g.set k d →
      call t ≠ .nofuel ∧ ∀ s', call t = .ret s' → s'.sudoku = g.set k d) :
    ∀ ds : List Int, (∀ d ∈ ds, d ≠ 0) → ∀ t : State, t.sudoku = g →
      solve_loop call (k : Int) ds t ≠ .nofuel ∧
        ∀ s', solve_loop call (k : Int) ds t = .ret s' → s'.sudoku = g := by
  intro ds
  induction ds with
  | nil =>
    intro _ t ht
    rw [solve_loop]
    exact ⟨by simp, fun s' h => by rw [← Outcome.ret.inj h]; exact ht⟩
  | cons d ds ih =>
    intro hds t ht
    have hd : d ≠ 0 := hds d (List.mem_cons_self _ _)
    have ih' := ih (fun x hx => hds x (List.mem_cons_of_mem _ hx))
    rw [solve_loop]
    cases hv : valid_attempt t.sudoku d (k : Int) with
    | none => simp
    | some v =>
      simp only
      by_cases hv0 : v ≠ 0
      · rw [if_pos hv0, ht, wr_nat _ _ _ (by omega)]
        simp only
        obtain ⟨hne, hret⟩ := hcall d hd { t with sudoku := g.set k d } rfl
        cases hc : call { t with sudoku := g.set k d } with
        | nofuel => exact absurd hc hne
        | fault s2 => simp
        | ret s2 =>
          simp only
          rw [hret s2 hc, wr_nat _ _ _ (by rw [List.length_set]; omega),
            set_set_back _ _ _ (by omega) h0]
          exact ih' _ rfl
      · rw [if_neg hv0]
        exact ih' t ht

theorem solve_general : ∀ (e n : Nat) (s : State), e + 1 ≤ n → s.sudoku.length = 81 →
    empties s.sudoku ≤ e →
      solve n s ≠ .nofuel ∧ ∀ s', solve n s = .ret s' → s'.sudoku = s.sudoku := by
  intro e
  induction e with
  | zero =>
    intro n s hn hl he
    obtain ⟨m, rfl⟩ : ∃ m, n = m + 1 := ⟨n - 1, by omega⟩
    rw [solve]
    by_cases hs : s.is_solved = true
    · rw [if_pos hs]
      exact ⟨by simp, fun s' h => by rw [← Outcome.ret.inj h]⟩
    · rw [if_neg hs]
      rcases first_empty_spec s.sudoku with ⟨hfe, _⟩ | ⟨c, hc81, _, h0, _⟩
      · simp only [hfe, if_true]
        obtain ⟨h1, h2⟩ := solve_loop_neg_one (solve m) [1, 2, 3, 4, 5, 6, 7, 8, 9]
          { s with is_solved := true, solved := copy_array s.sudoku s.solved 81,
                   copies := s.copies + 1 }
        exact ⟨h1, fun s' h => by rw [h2 s' h]⟩
      · have := empties_pos s.sudoku c hc81 h0
        omega
  | succ e ih =>
    intro n s hn hl he
    obtain ⟨m, rfl⟩ : ∃ m, n = m + 1 := ⟨n - 1, by omega⟩
    rw [solve]
    by_cases hs : s.is_solved = true
    · rw [if_pos hs]
      exact ⟨by simp, fun s' h => by rw [← Outcome.ret.inj h]⟩
    · rw [if_neg hs]
      rcases first_empty_spec s.sudoku with ⟨hfe, _⟩ | ⟨c, hc81, hfe, h0, _⟩
      · simp only [hfe, if_true]
        obtain ⟨h1, h2⟩ := solve_loop_neg_one (solve m) [1, 2, 3, 4, 5, 6, 7, 8, 9]
          { s with is_solved := true, solved := copy_array s.sudoku s.solved 81,
                   copies := s.copies + 1 }
        exact ⟨h1, fun s' h => by rw [h2 s' h]⟩
      · have hne : ¬ ((c : Int) = -1) := by omega
        simp only [hfe, hne, if_false]
        apply solve_loop_general (solve m) s.sudoku c hl hc81 h0 _ _
          (fun d hd => by have := (mem_digits d).1 hd; omega) s rfl
        intro d hd t ht
        have := ih m t (by omega) (by rw [ht, List.length_set]; exact hl)
          (by rw [ht]; have := empties_set_lt s.sudoku c d hl hc81 h0 hd; omega)
        rw [ht] at this
        exact this


/-- C11. For an 81-cell grid, `first_empty` returns the least index `i` in
`[0,80]` with `grid[i] == 0` when there is one, and returns `-1` exactly when
no cell among the 81 is zero. -/
theorem first_empty_least (g : List Int) (_hg : g.length = 81) :
    ((∃ i, i < 81 ∧ cell g i = 0) →
        ∃ k : Nat, k < 81 ∧ first_empty g = (k : Int) ∧ cell g k = 0 ∧
          ∀ j, j < 81 → cell g j = 0 → k ≤ j) ∧
      (first_empty g = -1 ↔ ∀ j, j < 81 → cell g j ≠ 0) := by
  rcases first_empty_spec g with ⟨hfe, hfull⟩ | ⟨k, hk, hfe, h0, hpre⟩
  · refine ⟨fun ⟨i, hi, hz⟩ => absurd hz (hfull i hi), fun _ => hfull, fun _ => hfe⟩
  · refine ⟨fun _ => ⟨k, hk, hfe, h0, fun j _ hz => ?_⟩, fun h => ?_, fun h => absurd h0 (h k hk)⟩
    · by_contra hlt
      exact hpre j (by omega) hz
    · rw [hfe] at h
      omega

theorem first_empty_least_witness :
    easyPuzzle.length = 81 ∧ first_empty (easyPuzzle.set 0 5) = 12 ∧
      first_empty solvedGrid = -1 :=
  ⟨rfl, by
    obtain ⟨k, _, hk, h0, hmin⟩ :=
      (first_empty_least (easyPuzzle.set 0 5) rfl).1 ⟨12, by decide, by decide⟩
    have h12 := hmin 12 (by decide) (by decide)
    have : k = 12 := by
      by_contra hne
      have hlt : k < 12 := by omega
      have : ∀ j, j < 12 → cell (easyPuzzle.set 0 5) j ≠ 0 := by decide
      exact this k hlt h0
    rw [hk, this]; rfl,
    (first_empty_least solvedGrid rfl).2.2 (by decide)⟩

/-- C12, as stated, fails: the latch is a `static` that nothing resets.  After
the completed run on the solvable `easyPuzzle`, a run on the same solvable
puzzle with a fresh output buffer returns at once and leaves the buffer blank,
which is not a completion, while a run from a clear latch writes
`solvedGrid`. -/
theorem solve_second_run_writes_nothing :
    (∃ f, Completion easyPuzzle f) ∧
      solve 82 (start easyPuzzle blank) = .ret easyDone ∧
      solve 82 (next easyDone easyPuzzle blank) =
        .ret { sudoku := easyPuzzle, solved := blank, is_solved := true, copies := 1 } ∧
      ¬ Completion easyPuzzle blank := by
  refine ⟨⟨solvedGrid, easyPuzzle_completion⟩, easyPuzzle_run, rfl, ?_⟩
  intro h
  have := h.1.range 0 (by omega)
  have h0 : cell blank 0 = 0 := by decide
  omega

/-- C12, amended: the latch is clear at the first run of a process only.  For
solvable 81-cell grids `g1` and `g2`, the run on `g1` from a clear latch
returns with the latch set, and a run on `g2` performed after it returns at
once with its working grid and its output buffer as they were handed in: no
completion of `g2` is written. -/
theorem solve_latch_persists (g1 out1 g2 out2 : List Int) (fuel1 fuel2 : Nat)
    (h1 : IsGrid g1) (hex1 : ∃ f, Completion g1 f) (hout1 : out1.length = 81)
    (hf1 : 82 ≤ fuel1) (hf2 : 1 ≤ fuel2) :
    ∃ s1, solve fuel1 (start g1 out1) = .ret s1 ∧ s1.is_solved = true ∧
      Completion g1 s1.solved ∧
      solve fuel2 (next s1 g2 out2) = .ret (next s1 g2 out2) ∧
      (next s1 g2 out2).sudoku = g2 ∧ (next s1 g2 out2).solved = out2 := by
  obtain ⟨f, hf⟩ := hex1
  obtain ⟨s1, hs1, _, hpost⟩ :=
    solve_spec 81 g1 h1 (completion_consistent hf) (empties_le g1) fuel1 (by omega) out1 0 hout1
  rcases hpost with ⟨hno, _⟩ | ⟨hl, _, hc, _⟩
  · exact absurd ⟨f, hf⟩ hno
  · refine ⟨s1, hs1, hl, hc, ?_, rfl, rfl⟩
    obtain ⟨m, rfl⟩ : ∃ m, fuel2 = m + 1 := ⟨fuel2 - 1, by omega⟩
    exact solve_latched m _ hl

theorem solve_latch_persists_witness :
    (IsGrid easyPuzzle ∧ ∃ f, Completion easyPuzzle f) ∧
      ∃ s1, solve 82 (start easyPuzzle blank) = .ret s1 ∧ s1.is_solved = true ∧
        Completion easyPuzzle s1.solved ∧
        solve 82 (next s1 blank blank) = .ret (next s1 blank blank) ∧
        (next s1 blank blank).sudoku = blank ∧ (next s1 blank blank).solved = blank :=
  ⟨⟨easyPuzzle_isGrid, solvedGrid, easyPuzzle_completion⟩,
    solve_latch_persists easyPuzzle blank blank blank 82 82 easyPuzzle_isGrid
      ⟨solvedGrid, easyPuzzle_completion⟩ rfl (by decide) (by decide)⟩


theorem neighbours_length (i : Int) : (neighbours i).length = 27 := by
  simp [neighbours, List.range_succ, List.flatMap_append, List.flatMap_cons]

set_option maxRecDepth 100000 in
/-- C13 at the grid of 81 ones: the grid is full, so `solve` records it and
falls through into its digit loop with `c = -1`; the tenth entry of
`neighbours(-1)` is `-1`, digit `2` is not among cells `0..8`, so
`valid_attempt` reads `sudoku[-1]` and the run stops at that access.  The
neighbour array itself always receives exactly 27 entries. -/
theorem solve_ones_reads_outside :
    IsGrid onesGrid ∧ first_empty onesGrid = -1 ∧
      (neighbours (-1))[9]? = some (-1) ∧ rd onesGrid (-1) = none ∧
      valid_attempt onesGrid 1 (-1) = some 0 ∧ valid_attempt onesGrid 2 (-1) = none ∧
      solve 82 (start onesGrid blank) =
        .fault { sudoku := onesGrid, solved := onesGrid, is_solved := true, copies := 1 } ∧
      (neighbours (-1)).length = 27 := by
  refine ⟨by decide, by decide, by decide, by decide, by decide, by decide, by decide,
    neighbours_length _⟩

/-- C14. On the all-zero 81-cell grid with the latch clear, the run of `solve`
returns (a depth budget of 82 is enough) with the latch set and, in the output
buffer, a grid with no empty cell in which each of the 9 rows, 9 columns and 9
boxes is a permutation of `1..9`. -/
theorem solve_blank (out : List Int) (fuel : Nat) (hout : out.length = 81) (hfuel : 82 ≤ fuel) :
    ∃ s, solve fuel (start blank out) = .ret s ∧ s.is_solved = true ∧ s.copies = 1 ∧
      ValidGrid s.solved ∧ (∀ i, i < 81 → cell s.solved i ≠ 0) ∧
      ∀ grp ∈ groups, (grp.map (cell s.solved)).Perm [1, 2, 3, 4, 5, 6, 7, 8, 9] := by
  have hc : Completion blank solvedGrid := by decide
  obtain ⟨s, hs, _, hpost⟩ := solve_spec 81 blank (by decide) (completion_consistent hc)
    (empties_le _) fuel (by omega) out 0 hout
  rcases hpost with ⟨hno, _⟩ | ⟨hl, hcop, hcomp, _⟩
  · exact absurd ⟨_, hc⟩ hno
  · refine ⟨s, hs, hl, hcop, hcomp.1, fun i hi => ?_, hcomp.1.2⟩
    have := hcomp.1.range i hi
    omega

theorem solve_blank_witness :
    (blank.length = 81 ∧ 82 ≤ 82) ∧
      ∃ s, solve 82 (start blank blank) = .ret s ∧ s.is_solved = true ∧ s.copies = 1 ∧
        ValidGrid s.solved ∧ (∀ i, i < 81 → cell s.solved i ≠ 0) ∧
        ∀ grp ∈ groups, (grp.map (cell s.solved)).Perm [1, 2, 3, 4, 5, 6, 7, 8, 9] :=
  ⟨⟨rfl, le_refl _⟩, solve_blank blank 82 rfl (le_refl _)⟩

/-- C15. Termination: on an 81-cell grid, solvable or not, a run of `solve`
from a clear latch never exhausts a depth budget of the number of empty cells
plus one, which is at most 82: it ends by returning or at an access outside
the grid.  The grid handed to a recursive call from a caller whose latch is
clear, the caller's grid with a digit `1..9` stored in its first empty cell,
has strictly fewer empty cells; a call made with the latch set returns at
once.  With values in `0..9` and consistent givens the run returns. -/
theorem solve_terminates (g out : List Int) (fuel : Nat) (hg : g.length = 81)
    (hfuel : empties g + 1 ≤ fuel) :
    solve fuel (start g out) ≠ .nofuel ∧ empties g + 1 ≤ 82 ∧
      (∀ (c : Nat) (d : Int), c < 81 → first_empty g = (c : Int) → 1 ≤ d → d ≤ 9 →
        empties (g.set c d) < empties g) ∧
      (∀ (n : Nat) (t : State), t.is_solved = true → solve (n + 1) t = .ret t) ∧
      (IsGrid g → Consistent g → out.length = 81 → ∃ s, solve fuel (start g out) = .ret s) := by
  refine ⟨(solve_general (empties g) fuel (start g out) hfuel hg (le_refl _)).1,
    by have := empties_le g; omega, fun c d hc hfe h1 h9 => ?_, solve_latched, fun h1 h2 h3 => ?_⟩
  · rcases first_empty_spec g with ⟨hfe', _⟩ | ⟨k, _, hfe', h0, _⟩
    · rw [hfe] at hfe'; omega
    · rw [hfe] at hfe'
      have : c = k := by omega
      subst this
      exact empties_set_lt g c d hg hc h0 (by omega)
  · obtain ⟨s, hs, _⟩ := solve_spec (empties g) g h1 h2 (le_refl _) fuel hfuel out 0 h3
    exact ⟨s, hs⟩

theorem solve_terminates_witness :
    (stuckGrid.length = 81 ∧ empties stuckGrid + 1 ≤ 82) ∧
      solve 82 (start stuckGrid blank) ≠ .nofuel :=
  ⟨⟨rfl, by have := empties_le stuckGrid; omega⟩,
    (solve_terminates stuckGrid blank 82 rfl (by have := empties_le stuckGrid; omega)).1⟩

/-- C16. The working grid is restored: on an 81-cell grid with values in `0..9`
and consistent givens the run of `solve` returns, whether or not a solution
was found, and whenever it returns, all cells of the working grid hold the
values they held before the call; what can differ afterwards is the output
buffer and the latch (and the counter of copies). -/
theorem solve_restores (g out : List Int) (fuel : Nat) (hg : IsGrid g) (hc : Consistent g)
    (hout : out.length = 81) :
    (∀ s, solve fuel (start g out) = .ret s → s.sudoku = g) ∧
      (82 ≤ fuel → ∃ s, solve fuel (start g out) = .ret s ∧ s.sudoku = g ∧
        ((s.is_solved = false ∧ s.solved = out) ∨ (s.is_solved = true ∧ Completion g s.solved))) := by
  constructor
  · intro s hs
    have h := solve_mono_le fuel (max fuel 82) (by omega) _ _ hs (by simp)
    exact (solve_general 81 (max fuel 82) (start g out) (by omega) hg.1 (empties_le g)).2 s h
  · intro hfuel
    obtain ⟨s, hs, hsud, hpost⟩ :=
      solve_spec 81 g hg hc (empties_le g) fuel (by omega) out 0 hout
    refine ⟨s, hs, hsud, ?_⟩
    rcases hpost with ⟨_, h1, h2, _⟩ | ⟨h1, _, h2, _⟩
    · exact Or.inl ⟨h2, h1⟩
    · exact Or.inr ⟨h1, h2⟩

set_option maxRecDepth 100000 in
theorem solve_restores_witness :
    (IsGrid stuckGrid ∧ Consistent stuckGrid) ∧
      (∀ s, solve 82 (start stuckGrid blank) = .ret s → s.sudoku = stuckGrid) :=
  ⟨⟨by decide, stuckGrid_consistent⟩,
    (solve_restores stuckGrid blank 82 (by decide) stuckGrid_consistent rfl).1⟩


theorem rot1_formula (row col : Nat) (hr : row < 9) (hc : col < 9) :
    rot1 (row * 9 + col) = col * 9 + (8 - row) := by
  unfold rot1; omega

theorem rotate_cell_times_small (k : Int) (hk : 0 ≤ k ∧ k ≤ 3) (i : Nat) (hi : i < 81) :
    rotate_cell_times k (i : Int) = ((rot1^[(k.tmod 4).toNat] i : Nat) : Int) := by
  obtain rfl | rfl | rfl | rfl : k = 0 ∨ k = 1 ∨ k = 2 ∨ k = 3 := by omega
  · exact rotate_cell_times_nat 0 i hi
  · exact rotate_cell_times_nat 1 i hi
  · exact rotate_cell_times_nat 2 i hi
  · exact rotate_cell_times_nat 3 i hi

/-- C17. Rotation geometry: `rotate_cell` sends the index `row*9 + col` to
`col*9 + (8 - row)`, is a bijection of `[0,80]` and its fourth iterate is the
identity there; for an 81-cell target buffer and `k` in `{0,1,2,3}` the grid
`h = rotate_times(g, k)` holds `g[i]` at the index reached from `i` by `k`
applications of `rotate_cell`, and `i ↦ rotate_cell^k(i)` is a bijection of
`[0,80]`, so each of the 81 cells of `h` is stored exactly once. -/
theorem rotate_geometry (g b : List Int) (k : Int) (hb : b.length = 81) (hk : 0 ≤ k ∧ k ≤ 3) :
    (∀ row col : Nat, row < 9 → col < 9 →
        rotate_cell ((row * 9 + col : Nat) : Int) = ((col * 9 + (8 - row) : Nat) : Int)) ∧
      (∀ i : Nat, i < 81 → 0 ≤ rotate_cell (i : Int) ∧ rotate_cell (i : Int) ≤ 80) ∧
      (∀ i j : Nat, i < 81 → j < 81 → rotate_cell (i : Int) = rotate_cell (j : Int) → i = j) ∧
      (∀ m : Nat, m < 81 → ∃ i : Nat, i < 81 ∧ rotate_cell (i : Int) = (m : Int)) ∧
      (∀ i : Nat, i < 81 → rotate_cell^[4] (i : Int) = (i : Int)) ∧
      (∀ i : Nat, i < 81 →
        0 ≤ rotate_cell_times k (i : Int) ∧ rotate_cell_times k (i : Int) ≤ 80 ∧
          rd (rotate_times g k b) (rotate_cell_times k (i : Int)) = some (cell g i)) ∧
      (∀ i j : Nat, i < 81 → j < 81 →
        rotate_cell_times k (i : Int) = rotate_cell_times k (j : Int) → i = j) ∧
      (∀ m : Nat, m < 81 → ∃ i : Nat, i < 81 ∧ rotate_cell_times k (i : Int) = (m : Int)) := by
  refine ⟨fun row col hr hc => ?_, fun i hi => ?_, fun i j hi hj h => ?_, fun m hm => ?_,
    fun i hi => ?_, fun i hi => ?_, fun i j hi hj h => ?_, fun m hm => ?_⟩
  · rw [rotate_cell_nat _ (by omega), rot1_formula row col hr hc]
  · rw [rotate_cell_nat i hi]
    have := rot1_lt i hi
    omega
  · rw [rotate_cell_nat i hi, rotate_cell_nat j hj] at h
    exact rot1_inj i j hi hj (by exact_mod_cast h)
  · refine ⟨rot1^[3] m, rot1_iter_lt 3 m hm, ?_⟩
    rw [rotate_cell_nat _ (rot1_iter_lt 3 m hm), ← Function.iterate_succ_apply' rot1 3 m]
    exact_mod_cast rot1_four m hm
  · have := rotate_cell_times_nat 4 i hi
    rw [rot1_four i hi] at this
    exact this
  · rw [rotate_cell_times_small k hk i hi]
    have hlt := rot1_iter_lt (k.tmod 4).toNat i hi
    refine ⟨by omega, by omega, ?_⟩
    rw [rd_nat _ _ (by rw [rotate_times_length_any, hb]; exact hlt),
      rotate_times_cell g b k hk.1 hb i hi]
  · rw [rotate_cell_times_small k hk i hi, rotate_cell_times_small k hk j hj] at h
    exact rot1_iter_inj _ i j hi hj (by exact_mod_cast h)
  · refine ⟨rot1^[4 - (k.tmod 4).toNat] m, rot1_iter_lt _ m hm, ?_⟩
    rw [rotate_cell_times_small k hk _ (rot1_iter_lt _ m hm),
      rot1_undo _ (tmod4_toNat_lt k hk.1) m hm]

theorem rotate_geometry_witness :
    (blank.length = 81 ∧ (0 : Int) ≤ 3 ∧ (3 : Int) ≤ 3) ∧
      rd (rotate_times easyPuzzle 3 blank) (rotate_cell_times 3 ((5 : Nat) : Int)) =
        some (cell easyPuzzle 5) :=
  ⟨⟨rfl, by decide, by decide⟩,
    ((rotate_geometry easyPuzzle blank 3 rfl (by decide)).2.2.2.2.2.1 5 (by decide)).2.2⟩

theorem lex_of_lexLe_aux : ∀ (p : Nat) (a b : List Int), p < a.length → p < b.length →
    (∀ q, q < p → cell a q = cell b q) → cell a p < cell b p → List.Lex (· < ·) a b := by
  intro p
  induction p with
  | zero =>
    intro a b ha hb _ hlt
    cases a with
    | nil => simp at ha
    | cons x ta =>
      cases b with
      | nil => simp at hb
      | cons y tb => exact List.Lex.rel (by simpa [cell] using hlt)
  | succ p ih =>
    intro a b ha hb hpre hlt
    cases a with
    | nil => simp at ha
    | cons x ta =>
      cases b with
      | nil => simp at hb
      | cons y tb =>
        have hxy : x = y := by simpa [cell] using hpre 0 (by omega)
        subst hxy
        apply List.Lex.cons
        apply ih ta tb (by simpa using ha) (by simpa using hb)
        · intro q hq
          have := hpre (q + 1) (by omega)
          simpa [cell] using this
        · simpa [cell] using hlt

theorem lex_of_lexLe {a b : List Int} (ha : a.length = 81) (hb : b.length = 81)
    (h : LexLe a b) : a = b ∨ List.Lex (· < ·) a b := by
  rcases h with h | ⟨p, hp, hpre, hlt⟩
  · exact Or.inl h
  · exact Or.inr (lex_of_lexLe_aux p a b (by omega) (by omega) hpre hlt)

/-- C18. The solution `solve` records is the lexicographically smallest one: on
a solvable 81-cell grid with values in `0..9`, the grid left in the output
buffer is a valid completion of the input and, read in index order `0..80`, is
equal to or lexicographically below every valid completion of the input. -/
theorem solve_lex_least (g out : List Int) (fuel : Nat) (hg : IsGrid g)
    (hex : ∃ f, Completion g f) (hout : out.length = 81) (hfuel : 82 ≤ fuel) :
    ∃ s, solve fuel (start g out) = .ret s ∧ Completion g s.solved ∧
      ∀ f, Completion g f →
        LexLe s.solved f ∧ (s.solved = f ∨ List.Lex (· < ·) s.solved f) := by
  obtain ⟨f0, hf0⟩ := hex
  obtain ⟨s, hs, _, hpost⟩ :=
    solve_spec 81 g hg (completion_consistent hf0) (empties_le g) fuel (by omega) out 0 hout
  rcases hpost with ⟨hno, _⟩ | ⟨_, _, hcomp, hlex⟩
  · exact absurd ⟨f0, hf0⟩ hno
  · exact ⟨s, hs, hcomp, fun f hf => ⟨hlex f hf, lex_of_lexLe hcomp.1.1 hf.1.1 (hlex f hf)⟩⟩

theorem solve_lex_least_witness :
    (IsGrid blank ∧ ∃ f, Completion blank f) ∧
      ∃ s, solve 82 (start blank blank) = .ret s ∧ Completion blank s.solved ∧
        ∀ f, Completion blank f →
          LexLe s.solved f ∧ (s.solved = f ∨ List.Lex (· < ·) s.solved f) :=
  ⟨⟨by decide, solvedGrid, by decide⟩,
    solve_lex_least blank blank 82 (by decide) ⟨solvedGrid, by decide⟩ rfl (le_refl _)⟩


set_option maxRecDepth 100000 in
theorem neighbours_neg_one_entries :
    (∀ t : Nat, t < 9 → (neighbours (-1))[t]? = some (t : Int)) ∧
      (neighbours (-1))[9]? = some (-1) := by
  decide

theorem row_zero_has_digit (f : List Int) (hf : ValidGrid f) (d : Int) (hd : 1 ≤ d ∧ d ≤ 9) :
    ∃ t, t < 9 ∧ cell f t = d := by
  have hp := hf.2 (rowCells 0) (rowCells_mem_groups 0 (by omega))
  have : d ∈ (rowCells 0).map (cell f) := hp.mem_iff.2 ((mem_digits d).2 hd)
  obtain ⟨n, hn, hnd⟩ := List.mem_map.1 this
  rw [mem_rowCells] at hn
  exact ⟨n, by omega, hnd⟩

/-- C19. The fall-through after a solution is recorded is harmless on puzzles
with consistent givens.  `neighbours(-1)` lists the indices `0..8` first and
`-1` tenth.  On an 81-cell grid with values in `0..9` and consistent givens,
from a clear latch, no run of `solve` stops at an access outside the grid and
a depth budget of 82 makes the run return; when a solution was recorded, every
digit `1..9` occurs among cells `0..8` of the recorded grid, so for each of
them `valid_attempt` at cell `-1` returns `0` without reading index `-1`, and
nothing is stored at index `-1`. -/
theorem solve_fallthrough_harmless (g out : List Int) (fuel : Nat) (hg : IsGrid g)
    (hc : Consistent g) (hout : out.length = 81) :
    ((∀ t : Nat, t < 9 → (neighbours (-1))[t]? = some (t : Int)) ∧
        (neighbours (-1))[9]? = some (-1)) ∧
      (∀ s, solve fuel (start g out) ≠ .fault s) ∧
      (82 ≤ fuel → ∃ s, solve fuel (start g out) = .ret s ∧ s.sudoku = g ∧
        (s.is_solved = true →
          (∀ d : Int, 1 ≤ d ∧ d ≤ 9 → ∃ t, t < 9 ∧ cell s.solved t = d) ∧
            (∀ d : Int, 1 ≤ d ∧ d ≤ 9 → valid_attempt s.solved d (-1) = some 0))) ∧
      (∀ (a : List Int) (v : Int), wr a (-1) v = none) := by
  refine ⟨neighbours_neg_one_entries, fun s hs => ?_, fun hfuel => ?_,
    fun a v => wr_neg a (-1) v (by norm_num)⟩
  · obtain ⟨s', hs', _⟩ :=
      solve_spec 81 g hg hc (empties_le g) (max fuel 82) (by omega) out 0 hout
    have := solve_mono_le fuel (max fuel 82) (by omega) _ _ hs (by simp)
    rw [start, hs'] at this
    exact absurd this (by simp)
  · obtain ⟨s, hs, hsud, hpost⟩ :=
      solve_spec 81 g hg hc (empties_le g) fuel (by omega) out 0 hout
    refine ⟨s, hs, hsud, fun hl => ?_⟩
    rcases hpost with ⟨_, _, h2, _⟩ | ⟨_, _, hcomp, _⟩
    · rw [hl] at h2; exact absurd h2 (by simp)
    · exact ⟨fun d hd => row_zero_has_digit _ hcomp.1 d hd,
        fun d hd => valid_attempt_fallthrough _ hcomp.1 d hd⟩

theorem solve_fallthrough_harmless_witness :
    (IsGrid easyPuzzle ∧ Consistent easyPuzzle) ∧
      (∀ s, solve 82 (start easyPuzzle blank) ≠ .fault s) ∧
      (∀ d : Int, 1 ≤ d ∧ d ≤ 9 → valid_attempt solvedGrid d (-1) = some 0) :=
  ⟨⟨easyPuzzle_isGrid, easyPuzzle_consistent⟩,
    (solve_fallthrough_harmless easyPuzzle blank 82 easyPuzzle_isGrid easyPuzzle_consistent
      rfl).2.1,
    by
      obtain ⟨s, hs, _, h⟩ := (solve_fallthrough_harmless easyPuzzle blank 82 easyPuzzle_isGrid
        easyPuzzle_consistent rfl).2.2.1 (le_refl _)
      have hs' : s = easyDone := Outcome.ret.inj (hs.symm.trans easyPuzzle_run)
      subst hs'
      exact (h rfl).2⟩

theorem fib_weights_exact_loop_buffer : ∀ (n : Nat) (w w' : List Nat) (a b : Nat),
    w.length = w'.length → (∀ j, n ≤ j → w[j]? = w'[j]?) →
      fib_weights_exact_loop n w a b = fib_weights_exact_loop n w' a b := by
  intro n
  induction n with
  | zero =>
    intro w w' a b _ h
    exact List.ext_getElem? (fun j => h j (Nat.zero_le _))
  | succ n ih =>
    intro w w' a b hl h
    unfold fib_weights_exact_loop
    apply ih
    · rw [List.length_set, List.length_set, hl]
    · intro j hj
      rw [List.getElem?_set, List.getElem?_set, hl]
      by_cases hnj : n = j
      · simp [hnj]
      · simp only [hnj, if_false]
        exact h j (by omega)

theorem weightTable_exact : fib_weights_exact (List.replicate 81 0) = weightTable := by
  decide

theorem fib_weights_exact_eq (w : List Nat) (h : w.length = 81) :
    fib_weights_exact w = weightTable := by
  rw [← weightTable_exact]
  unfold fib_weights_exact
  apply fib_weights_exact_loop_buffer
  · rw [h]; rfl
  · intro j hj
    rw [List.getElem?_eq_none (by omega), List.getElem?_eq_none (by simp; omega)]

theorem difficulty_exact_loop (g : List Int) (w : List Nat) :
    ∀ n,
      (List.range n).foldl
        (fun diff (i : Nat) => if g.getD i 0 = 0 then diff + w.getD i 0 else diff) 0 =
        emptyWeightUpTo g w n := by
  intro n
  induction n with
  | zero => rfl
  | succ n ih =>
    rw [List.range_succ, List.foldl_append, ih]
    simp only [List.foldl_cons, List.foldl_nil]
    rw [emptyWeightUpTo_succ]
    by_cases h : cell g n = 0
    · have h' : g.getD n 0 = 0 := h
      rw [if_pos h', if_pos h]
    · have h' : ¬ g.getD n 0 = 0 := h
      rw [if_neg h', if_neg h]
      rfl

theorem weightUpTo_eq_sum (w : List Nat) :
    ∀ n, weightUpTo w n = ∑ i in Finset.range n, w.getD i 0 := by
  intro n
  induction n with
  | zero => rfl
  | succ n ih => rw [weightUpTo_succ, ih, Finset.sum_range_succ]

set_option maxRecDepth 100000 in
theorem blank_score : emptyWeightUpTo blank weightTable 81 = fibo 84 - 2 := by
  decide

/-- C20. The scoring arithmetic never wraps.  Over the natural numbers the
weights are `w[80 - k] = fibo (k + 2)` with `fibo 1 = fibo 2 = 1`; the largest
weight `w[0] = fibo 82` and the sum of all 81 weights, `fibo 84 - 2`, are below
`2 ^ 64`; so `fib_weights` and `difficulty` in unsigned 64-bit arithmetic
return the values computed without reduction, for every grid, the all-empty
grid included, whose score is the sum of all weights. -/
theorem scoring_never_wraps (w : List Nat) (hw : w.length = 81) :
    (fibo 1 = 1 ∧ fibo 2 = 1) ∧
      (∀ k, k ≤ 80 → (fib_weights_exact w).getD (80 - k) 0 = fibo (k + 2)) ∧
      ((fib_weights_exact w).getD 0 0 = fibo 82 ∧ fibo 82 < 2 ^ 64) ∧
      (∑ i in Finset.range 81, (fib_weights_exact w).getD i 0 = fibo 84 - 2 ∧
        fibo 84 - 2 < 2 ^ 64) ∧
      fib_weights w = fib_weights_exact w ∧
      (∀ g : List Int, difficulty g (fib_weights w) = difficulty_exact g (fib_weights_exact w)) ∧
      difficulty blank (fib_weights w) = fibo 84 - 2 := by
  have hdiff : ∀ g : List Int, difficulty g weightTable = emptyWeightUpTo g weightTable 81 :=
    fun g => difficulty_loop g weightTable weightTable_total.2.1 81 (le_refl _)
  rw [fib_weights_exact_eq w hw, fib_weights_eq w hw]
  refine ⟨⟨rfl, rfl⟩, fun k hk => ?_, ⟨?_, ?_⟩, ⟨?_, ?_⟩, rfl, fun g => ?_, ?_⟩
  · have := weightTable_facts.2.2.2.2.2 (80 - k) (by omega)
    rw [this, show 82 - (80 - k) = k + 2 by omega]
  · exact weightTable_facts.2.2.2.2.2 0 (by omega)
  · decide
  · rw [← weightUpTo_eq_sum]; exact weightTable_total.1
  · decide
  · rw [hdiff g]
    exact (difficulty_exact_loop g weightTable 81).symm
  · rw [hdiff blank]
    exact blank_score

theorem scoring_never_wraps_witness :
    (List.replicate 81 (0 : Nat)).length = 81 ∧
      fib_weights (List.replicate 81 0) = fib_weights_exact (List.replicate 81 0) ∧
      difficulty blank (fib_weights (List.replicate 81 0)) = fibo 84 - 2 :=
  ⟨rfl, (scoring_never_wraps (List.replicate 81 0) rfl).2.2.2.2.1,
    (scoring_never_wraps (List.replicate 81 0) rfl).2.2.2.2.2.2⟩


end Sudoku
